import Mathlib

/-!
Shallow embedding of the StudyBuddy backend notification engine and its two
store backends (`internal/store/mongo_store.go`, the in-memory store, and
`internal/worker/worker.go`).

Modelling conventions:
* Mongo collections are lists of records in insertion order.  `FindOne` is
  `List.find?`, `InsertOne` appends, `UpdateOne`/`ReplaceOne`/`DeleteOne` act
  on the first matching document and report the matched/deleted count.
* Wall-clock instants are integers (`Int`); `time.ParseDuration` and
  `time.Parse` are passed in as explicit functions `String → Option Int`
  (a `none` result is a parse error), and `time.Time.Format` as
  `Int → String`.  The claims under study hold for every such function,
  so the theorems quantify over them.
* UUID generation is passed in as a supply `Nat → String` threaded through
  the worker with a counter.
* The email sender (`email.SendNotificationEmail`) is a function
  `String → String → String → Bool` returning whether the send succeeded;
  every invocation is recorded in a trace, labelled with the id of the
  notification being processed.
* Go maps (the in-memory store) are association lists with unique keys;
  `mapSet` overwrites an existing key in place, `mapGet?` looks up.
-/

namespace StudyBuddy

/-- Task mirrors `models.Task` (pkg/models/models.go). -/
structure Task where
  id : String
  title : String
  description : String
  courseID : String
  userID : String
  dueDate : String
  dueTime : String
  completed : Bool
  hasReminder : Bool
  deriving Repr, DecidableEq

/-- Event mirrors `models.Event`. -/
structure Event where
  id : String
  title : String
  description : String
  courseID : String
  userID : String
  date : String
  startTime : String
  endTime : String
  type : String
  deriving Repr, DecidableEq

/-- Course mirrors `models.Course`. -/
structure Course where
  id : String
  name : String
  color : String
  userID : String
  totalTasks : Int
  completedTasks : Int
  deriving Repr, DecidableEq

/-- User mirrors `models.User`. -/
structure User where
  id : String
  name : String
  email : String
  password : String
  isVerified : Bool
  verificationToken : String
  deriving Repr, DecidableEq

/-- Notification mirrors `models.Notification`. -/
structure Notification where
  id : String
  userID : String
  message : String
  type : String
  referenceID : String
  read : Bool
  createdAt : String
  emailed : Bool
  deriving Repr, DecidableEq

/-- Store errors: `ErrNotFound` and the `time.ParseDuration` failure path. -/
inductive StoreErr where
  | notFound
  | validation
  deriving Repr, DecidableEq

/-- Mongo `UpdateOne`: apply `f` to the first element matching `p`,
returning the new collection and the matched count (0 or 1). -/
def updateOne (p : α → Bool) (f : α → α) : List α → List α × Nat
  | [] => ([], 0)
  | x :: xs =>
    if p x then (f x :: xs, 1)
    else
      let r := updateOne p f xs
      (x :: r.1, r.2)

/-- Mongo `DeleteOne`: remove the first element matching `p`,
returning the new collection and the deleted count (0 or 1). -/
def deleteOne (p : α → Bool) : List α → List α × Nat
  | [] => ([], 0)
  | x :: xs =>
    if p x then (xs, 1)
    else
      let r := deleteOne p xs
      (x :: r.1, r.2)

/-- The document-store state: one list (insertion-ordered collection)
per entity kind, as in `MongoStore`. -/
structure MongoState where
  tasks : List Task
  courses : List Course
  events : List Event
  users : List User
  notifications : List Notification
  deriving Repr, DecidableEq

def emptyMongo : MongoState := ⟨[], [], [], [], []⟩

/-- The four-field partial user update both backends implement: the
document store builds a `$set` from the non-zero-valued fields of `u`
(mongo_store.go:311-323) and the in-process store merges the same four
fields onto the existing record (the in-memory UpdateUser loop). -/
def mergeUserFields (u : User) (existing : User) : User :=
  let e1 := if u.name == "" then existing else { existing with name := u.name }
  let e2 := if u.email == "" then e1 else { e1 with email := u.email }
  let e3 := if u.isVerified then { e2 with isVerified := true } else e2
  if u.verificationToken == "" then e3
  else { e3 with verificationToken := u.verificationToken }

namespace MongoStore

/-- `GetTask`: `FindOne {"id": id}`, `ErrNotFound` on no document. -/
def GetTask (id : String) (st : MongoState) : Except StoreErr Task :=
  match st.tasks.find? (fun t => t.id == id) with
  | some t => .ok t
  | none => .error .notFound

/-- `GetTasks(userID)`: `Find {"userId": userID}`. -/
def GetTasks (userID : String) (st : MongoState) : List Task :=
  st.tasks.filter (fun t => t.userID == userID)

/-- `CreateTask`: assign a fresh id when absent, `InsertOne`. -/
def CreateTask (genId : String) (t : Task) (st : MongoState) :
    Task × MongoState :=
  let t' := if t.id == "" then { t with id := genId } else t
  (t', { st with tasks := st.tasks ++ [t'] })

/-- `UpdateTask`: `ReplaceOne {"id": id}` with `t.ID = id`;
`ErrNotFound` when nothing matched. -/
def UpdateTask (id : String) (t : Task) (st : MongoState) :
    Except StoreErr Task × MongoState :=
  let t' := { t with id := id }
  let r := updateOne (fun x => x.id == id) (fun _ => t') st.tasks
  if r.2 == 0 then (.error .notFound, { st with tasks := r.1 })
  else (.ok t', { st with tasks := r.1 })

/-- `DeleteTask`: `DeleteOne {"id": id}`; `ErrNotFound` when nothing matched. -/
def DeleteTask (id : String) (st : MongoState) :
    Except StoreErr Unit × MongoState :=
  let r := deleteOne (fun x => x.id == id) st.tasks
  if r.2 == 0 then (.error .notFound, { st with tasks := r.1 })
  else (.ok (), { st with tasks := r.1 })

/-- `CreateCourse`. -/
def CreateCourse (genId : String) (c : Course) (st : MongoState) :
    Course × MongoState :=
  let c' := if c.id == "" then { c with id := genId } else c
  (c', { st with courses := st.courses ++ [c'] })

/-- `CreateEvent`. -/
def CreateEvent (genId : String) (e : Event) (st : MongoState) :
    Event × MongoState :=
  let e' := if e.id == "" then { e with id := genId } else e
  (e', { st with events := st.events ++ [e'] })

/-- `GetCourse`: `FindOne {"id": id}`. -/
def GetCourse (id : String) (st : MongoState) : Except StoreErr Course :=
  match st.courses.find? (fun c => c.id == id) with
  | some c => .ok c
  | none => .error .notFound

/-- `GetCourses(userID)`: `Find {"userId": userID}`, then for each course a
`CountDocuments` over the tasks with this user and course (and again with
`completed: true`) fills totalTasks/completedTasks. -/
def GetCourses (userID : String) (st : MongoState) : List Course :=
  (st.courses.filter (fun c => c.userID == userID)).map (fun c =>
    { c with
      totalTasks := ((st.tasks.filter
        (fun t => t.userID == userID && t.courseID == c.id)).length : Int)
      completedTasks := ((st.tasks.filter
        (fun t => t.userID == userID && t.courseID == c.id &&
          t.completed)).length : Int) })

/-- `GetEvents(userID)`: `Find {"userId": userID}`. -/
def GetEvents (userID : String) (st : MongoState) : List Event :=
  st.events.filter (fun e => e.userID == userID)

/-- `GetUser`: `FindOne {"id": id}`. -/
def GetUser (id : String) (st : MongoState) : Except StoreErr User :=
  match st.users.find? (fun u => u.id == id) with
  | some u => .ok u
  | none => .error .notFound

/-- `CreateUser`. -/
def CreateUser (genId : String) (u : User) (st : MongoState) :
    User × MongoState :=
  let u' := if u.id == "" then { u with id := genId } else u
  (u', { st with users := st.users ++ [u'] })

/-- `UpdateUser`: partial `$set` of name/email/isVerified/verificationToken;
with an all-zero update document it returns the zero `User` untouched;
`ErrNotFound` when nothing matched, else re-reads the user. -/
def UpdateUser (id : String) (u : User) (st : MongoState) :
    Except StoreErr User × MongoState :=
  if u.name == "" && u.email == "" && !u.isVerified && u.verificationToken == ""
  then (.ok ⟨"", "", "", "", false, ""⟩, st)
  else
    let r := updateOne (fun x => x.id == id) (mergeUserFields u) st.users
    if r.2 == 0 then (.error .notFound, { st with users := r.1 })
    else
      let st' := { st with users := r.1 }
      (GetUser id st', st')

/-- `MarkUserVerified`: `$set {isVerified: true, verificationToken: ""}`. -/
def MarkUserVerified (id : String) (st : MongoState) :
    Except StoreErr Unit × MongoState :=
  let r := updateOne (fun x => x.id == id)
    (fun x => { x with isVerified := true, verificationToken := "" }) st.users
  if r.2 == 0 then (.error .notFound, { st with users := r.1 })
  else (.ok (), { st with users := r.1 })

/-- `UpdateUserPassword`: `$set {password: hashed}`. -/
def UpdateUserPassword (id : String) (hashed : String) (st : MongoState) :
    Except StoreErr User × MongoState :=
  let r := updateOne (fun x => x.id == id)
    (fun x => { x with password := hashed }) st.users
  if r.2 == 0 then (.error .notFound, { st with users := r.1 })
  else
    let st' := { st with users := r.1 }
    (GetUser id st', st')

/-- `GetNotificationByReferenceID`: `FindOne {"referenceId": refID, "type": nType}`. -/
def GetNotificationByReferenceID (refID : String) (nType : String)
    (st : MongoState) : Except StoreErr Notification :=
  match st.notifications.find?
      (fun n => n.referenceID == refID && n.type == nType) with
  | some n => .ok n
  | none => .error .notFound

/-- `CreateNotification`: assign a fresh id and a creation timestamp when
absent, `InsertOne`. -/
def CreateNotification (genId : String) (nowStr : String) (n : Notification)
    (st : MongoState) : Notification × MongoState :=
  let n1 := if n.id == "" then { n with id := genId } else n
  let n2 := if n1.createdAt == "" then { n1 with createdAt := nowStr } else n1
  (n2, { st with notifications := st.notifications ++ [n2] })

/-- `MarkNotificationAsRead`: `UpdateOne {"id": id} {$set: {read: true}}`;
`ErrNotFound` when the matched count is zero. -/
def MarkNotificationAsRead (id : String) (st : MongoState) :
    Except StoreErr Unit × MongoState :=
  let r := updateOne (fun n => n.id == id)
    (fun n => { n with read := true }) st.notifications
  let st' := { st with notifications := r.1 }
  if r.2 == 0 then (.error .notFound, st') else (.ok (), st')

/-- `MarkNotificationAsEmailed`: `UpdateOne {"id": id} {$set: {emailed: true}}`;
the matched count is ignored, so a missing id is still a success. -/
def MarkNotificationAsEmailed (id : String) (st : MongoState) :
    Except StoreErr Unit × MongoState :=
  let r := updateOne (fun n => n.id == id)
    (fun n => { n with emailed := true }) st.notifications
  (.ok (), { st with notifications := r.1 })

/-- `GetUnreadNotificationsOlderThan`: parse the duration (error on failure),
format `now - d` as the cutoff string, and return the notifications with
`read=false`, `emailed=false` and `createdAt < cutoff` (the Mongo `$lt` on
strings is lexicographic; Lean's `String` order is by definition the
lexicographic order on the character lists, spelled out here so that it
evaluates). -/
def GetUnreadNotificationsOlderThan (pd : String → Option Int)
    (fmt : Int → String) (now : Int) (duration : String) (st : MongoState) :
    Except StoreErr (List Notification) :=
  match pd duration with
  | none => .error .validation
  | some d =>
    let cutoff := fmt (now - d)
    .ok (st.notifications.filter
      (fun n => !n.read && !n.emailed && decide (n.createdAt.data < cutoff.data)))

/-- The due string concatenated by `GetTasksDueIn`: `DueDate + " " + DueTime`. -/
def taskDueStr (t : Task) : String := t.dueDate ++ " " ++ t.dueTime

/-- The start string concatenated by `GetEventsStartingIn`:
`Date + " " + StartTime`. -/
def eventStartStr (e : Event) : String := e.date ++ " " ++ e.startTime

/-- `GetTasksDueIn`: parse duration (error on failure), fetch all
incomplete tasks, keep those whose parsed due instant satisfies
`due.After(now) && due.Before(now+d)`; unparseable dues are dropped. -/
def GetTasksDueIn (pd parse : String → Option Int) (now : Int)
    (duration : String) (st : MongoState) : Except StoreErr (List Task) :=
  match pd duration with
  | none => .error .validation
  | some d =>
    let target := now + d
    .ok ((st.tasks.filter (fun t => t.completed == false)).filter (fun t =>
      match parse (taskDueStr t) with
      | some due => decide (now < due) && decide (due < target)
      | none => false))

/-- `GetEventsStartingIn`: parse duration (error on failure), fetch all
events, keep those whose parsed start instant satisfies
`start.After(now) && start.Before(now+d)`. -/
def GetEventsStartingIn (pd parse : String → Option Int) (now : Int)
    (duration : String) (st : MongoState) : Except StoreErr (List Event) :=
  match pd duration with
  | none => .error .validation
  | some d =>
    let target := now + d
    .ok (st.events.filter (fun e =>
      match parse (eventStartStr e) with
      | some s => decide (now < s) && decide (s < target)
      | none => false))

end MongoStore

/-- Association-list update modelling a Go map assignment `m[k] = v`:
overwrite the entry for `k` in place, or append a new one. -/
def mapSet (k : String) (v : α) : List (String × α) → List (String × α)
  | [] => [(k, v)]
  | (k', v') :: rest =>
    if k' == k then (k', v) :: rest else (k', v') :: mapSet k v rest

/-- Association-list lookup modelling a Go map read `m[k]`. -/
def mapGet? (k : String) (m : List (String × α)) : Option α :=
  (m.find? (fun kv => kv.1 == k)).map (fun kv => kv.2)

/-- Association-list removal modelling Go `delete(m, k)`. -/
def mapDel (k : String) : List (String × α) → List (String × α)
  | [] => []
  | (k', v') :: rest =>
    if k' == k then rest else (k', v') :: mapDel k rest

/-- The in-process store state: one id-keyed map per entity kind, as in
`InMemoryStore` (Go maps, modelled as unique-key association lists).
The in-memory store holds no notification state at all. -/
structure InMemoryState where
  tasks : List (String × Task)
  courses : List (String × Course)
  events : List (String × Event)
  users : List (String × User)
  deriving Repr, DecidableEq

def emptyInMemory : InMemoryState := ⟨[], [], [], []⟩

namespace InMemoryStore

/-- `GetTask`: map lookup, `ErrNotFound` on a missing key. -/
def GetTask (id : String) (st : InMemoryState) : Except StoreErr Task :=
  match mapGet? id st.tasks with
  | some t => .ok t
  | none => .error .notFound

/-- `GetTasks(userID)`: iterate the map keeping the caller's tasks.  The Go
map's iteration order is unspecified (deliberately randomized); this model
fixes the insertion order arbitrarily, and nothing proved about backend
parity depends on it — list results are only ever compared modulo
permutation. -/
def GetTasks (userID : String) (st : InMemoryState) : List Task :=
  (st.tasks.map (fun kv => kv.2)).filter (fun t => t.userID == userID)

/-- `CreateTask`: `s.tasks[t.ID] = t` (no id generation). -/
def CreateTask (t : Task) (st : InMemoryState) : Task × InMemoryState :=
  (t, { st with tasks := mapSet t.id t st.tasks })

/-- `UpdateTask`: `ErrNotFound` on a missing key, else store `t` with
`t.ID = id`. -/
def UpdateTask (id : String) (t : Task) (st : InMemoryState) :
    Except StoreErr Task × InMemoryState :=
  match mapGet? id st.tasks with
  | none => (.error .notFound, st)
  | some _ =>
    let t' := { t with id := id }
    (.ok t', { st with tasks := mapSet id t' st.tasks })

/-- `DeleteTask`: `ErrNotFound` on a missing key, else delete. -/
def DeleteTask (id : String) (st : InMemoryState) :
    Except StoreErr Unit × InMemoryState :=
  match mapGet? id st.tasks with
  | none => (.error .notFound, st)
  | some _ => (.ok (), { st with tasks := mapDel id st.tasks })

/-- `GetUser`. -/
def GetUser (id : String) (st : InMemoryState) : Except StoreErr User :=
  match mapGet? id st.users with
  | some u => .ok u
  | none => .error .notFound

/-- `CreateUser`. -/
def CreateUser (u : User) (st : InMemoryState) : User × InMemoryState :=
  (u, { st with users := mapSet u.id u st.users })

/-- `GetCourse`: map lookup, `ErrNotFound` on a missing key. -/
def GetCourse (id : String) (st : InMemoryState) : Except StoreErr Course :=
  match mapGet? id st.courses with
  | some c => .ok c
  | none => .error .notFound

/-- `GetCourses(userID)`: iterate the map keeping the caller's courses and
counting that user's total/completed tasks per course (map iteration order
is unspecified in Go; the model's order is arbitrary, see `GetTasks`). -/
def GetCourses (userID : String) (st : InMemoryState) : List Course :=
  ((st.courses.map (fun kv => kv.2)).filter
      (fun c => c.userID == userID)).map (fun c =>
    { c with
      totalTasks := (((st.tasks.map (fun kv => kv.2)).filter
        (fun t => t.userID == userID && t.courseID == c.id)).length : Int)
      completedTasks := (((st.tasks.map (fun kv => kv.2)).filter
        (fun t => t.userID == userID && t.courseID == c.id &&
          t.completed)).length : Int) })

/-- `CreateCourse`: `s.courses[c.ID] = c`. -/
def CreateCourse (c : Course) (st : InMemoryState) : Course × InMemoryState :=
  (c, { st with courses := mapSet c.id c st.courses })

/-- `GetEvents(userID)`: iterate the map keeping the caller's events
(order arbitrary, see `GetTasks`). -/
def GetEvents (userID : String) (st : InMemoryState) : List Event :=
  (st.events.map (fun kv => kv.2)).filter (fun e => e.userID == userID)

/-- `CreateEvent`: `s.events[e.ID] = e`. -/
def CreateEvent (e : Event) (st : InMemoryState) : Event × InMemoryState :=
  (e, { st with events := mapSet e.id e st.events })

/-- `UpdateUser`: `ErrNotFound` on a missing key, else merge the non-zero
fields of `u` onto the existing record (the same four-field merge as the
document store, `mergeUserFields`) and store it. -/
def UpdateUser (id : String) (u : User) (st : InMemoryState) :
    Except StoreErr User × InMemoryState :=
  match mapGet? id st.users with
  | none => (.error .notFound, st)
  | some existing =>
    let merged := mergeUserFields u existing
    (.ok merged, { st with users := mapSet id merged st.users })

/-- `UpdateUserPassword`: `ErrNotFound` on a missing key; with an empty
password it returns the zero `User` and changes nothing; else it stores the
new password hash. -/
def UpdateUserPassword (id : String) (pw : String) (st : InMemoryState) :
    Except StoreErr User × InMemoryState :=
  match mapGet? id st.users with
  | none => (.error .notFound, st)
  | some existing =>
    if pw == "" then (.ok ⟨"", "", "", "", false, ""⟩, st)
    else
      let updated := { existing with password := pw }
      (.ok updated, { st with users := mapSet id updated st.users })

/-- `MarkUserVerified`: `ErrNotFound` on a missing key, else set the
verified flag and clear the token. -/
def MarkUserVerified (id : String) (st : InMemoryState) :
    Except StoreErr Unit × InMemoryState :=
  match mapGet? id st.users with
  | none => (.error .notFound, st)
  | some existing =>
    let updated := { existing with isVerified := true, verificationToken := "" }
    (.ok (), { st with users := mapSet id updated st.users })

/-- Notification stub: `GetNotifications` always returns the empty list. -/
def GetNotifications (_userID : String) (_st : InMemoryState) :
    List Notification := []

/-- Notification stub: `GetNotificationByReferenceID` always reports
`ErrNotFound`, whatever was created before. -/
def GetNotificationByReferenceID (_refID : String) (_nType : String)
    (_st : InMemoryState) : Except StoreErr Notification := .error .notFound

/-- Notification stub: `CreateNotification` returns its argument and
persists nothing. -/
def CreateNotification (n : Notification) (st : InMemoryState) :
    Notification × InMemoryState := (n, st)

/-- Notification stub: `MarkNotificationAsRead` always succeeds, no effect. -/
def MarkNotificationAsRead (_id : String) (st : InMemoryState) :
    Except StoreErr Unit × InMemoryState := (.ok (), st)

/-- Notification stub: `GetUnreadNotificationsOlderThan` always returns
the empty list. -/
def GetUnreadNotificationsOlderThan (_duration : String) (_st : InMemoryState) :
    Except StoreErr (List Notification) := .ok []

/-- Notification stub: `MarkNotificationAsEmailed` always succeeds, no effect. -/
def MarkNotificationAsEmailed (_id : String) (st : InMemoryState) :
    Except StoreErr Unit × InMemoryState := (.ok (), st)

/-- Worker-helper stub: `GetTasksDueIn` always returns the empty list. -/
def GetTasksDueIn (_duration : String) (_st : InMemoryState) :
    Except StoreErr (List Task) := .ok []

/-- Worker-helper stub: `GetEventsStartingIn` always returns the empty list. -/
def GetEventsStartingIn (_duration : String) (_st : InMemoryState) :
    Except StoreErr (List Event) := .ok []

end InMemoryStore

/-- Ambient capabilities of the worker: duration parsing (`time.ParseDuration`),
timestamp parsing (`time.Parse`), timestamp formatting, the current instant
and its RFC3339 rendering, a uuid supply, and the email sender (success flag). -/
structure Env where
  pd : String → Option Int
  parse : String → Option Int
  fmt : Int → String
  now : Int
  nowStr : String
  gen : Nat → String
  send : String → String → String → Bool

namespace Worker

/-- The notification constructed by `CheckUpcomingTasks` for a due task. -/
def taskNotification (t : Task) : Notification :=
  { id := "", userID := t.userID
    message := "Task \x27" ++ t.title ++ "\x27 is due in less than 24 hours!"
    type := "TASK_DUE", referenceID := t.id
    read := false, createdAt := "", emailed := false }

/-- The notification constructed by `CheckUpcomingEvents` for an upcoming
event. -/
def eventNotification (e : Event) : Notification :=
  { id := "", userID := e.userID
    message := "Event \x27" ++ e.title ++ "\x27 is starting in less than 24 hours!"
    type := "EVENT_START", referenceID := e.id
    read := false, createdAt := "", emailed := false }

/-- The loop body of `CheckUpcomingTasks`: for each fetched task, skip when a
`TASK_DUE` notification for its id already exists, else create one.  `k` is
the uuid-supply counter. -/
def processDueTasks (env : Env) : List Task → MongoState → Nat →
    MongoState × Nat
  | [], st, k => (st, k)
  | t :: ts, st, k =>
    match MongoStore.GetNotificationByReferenceID t.id "TASK_DUE" st with
    | .ok _ => processDueTasks env ts st k
    | .error _ =>
      let r := MongoStore.CreateNotification (env.gen k) env.nowStr
        (taskNotification t) st
      processDueTasks env ts r.2 (k + 1)

/-- `CheckUpcomingTasks`: fetch the tasks due in the next 24 hours (an error
aborts only this step) and process them. -/
def CheckUpcomingTasks (env : Env) (st : MongoState) (k : Nat) :
    MongoState × Nat :=
  match MongoStore.GetTasksDueIn env.pd env.parse env.now "24h" st with
  | .error _ => (st, k)
  | .ok ts => processDueTasks env ts st k

/-- The loop body of `CheckUpcomingEvents`. -/
def processDueEvents (env : Env) : List Event → MongoState → Nat →
    MongoState × Nat
  | [], st, k => (st, k)
  | e :: es, st, k =>
    match MongoStore.GetNotificationByReferenceID e.id "EVENT_START" st with
    | .ok _ => processDueEvents env es st k
    | .error _ =>
      let r := MongoStore.CreateNotification (env.gen k) env.nowStr
        (eventNotification e) st
      processDueEvents env es r.2 (k + 1)

/-- `CheckUpcomingEvents`: fetch the events starting in the next 24 hours
(an error aborts only this step) and process them. -/
def CheckUpcomingEvents (env : Env) (st : MongoState) (k : Nat) :
    MongoState × Nat :=
  match MongoStore.GetEventsStartingIn env.pd env.parse env.now "24h" st with
  | .error _ => (st, k)
  | .ok es => processDueEvents env es st k

/-- One recorded invocation of `email.SendNotificationEmail`, labelled with
the id of the notification being processed when it was made. -/
structure SendCall where
  notifId : String
  email : String
  subject : String
  message : String
  deriving Repr, DecidableEq

/-- The subject line used by `CheckUnreadNotifications`. -/
def staleSubject : String := "You have an unread notification"

/-- The loop body of `CheckUnreadNotifications`: for each stale unread
notification, fetch its owner (a failure skips the item); an unverified
owner is marked emailed without any send; a verified owner gets one send,
marked emailed only when the send succeeded. -/
def processStale (env : Env) : List Notification → MongoState →
    List SendCall → MongoState × List SendCall
  | [], st, tr => (st, tr)
  | n :: ns, st, tr =>
    match MongoStore.GetUser n.userID st with
    | .error _ => processStale env ns st tr
    | .ok u =>
      if !u.isVerified then
        let r := MongoStore.MarkNotificationAsEmailed n.id st
        processStale env ns r.2 tr
      else
        let ok := env.send u.email staleSubject n.message
        let tr' := tr ++ [⟨n.id, u.email, staleSubject, n.message⟩]
        if ok then
          let r := MongoStore.MarkNotificationAsEmailed n.id st
          processStale env ns r.2 tr'
        else
          processStale env ns st tr'

/-- `CheckUnreadNotifications`: fetch the unread notifications older than one
hour (an error aborts only this step) and process them, returning the final
state and the trace of email sends. -/
def CheckUnreadNotifications (env : Env) (st : MongoState) :
    MongoState × List SendCall :=
  match MongoStore.GetUnreadNotificationsOlderThan env.pd env.fmt env.now
      "1h" st with
  | .error _ => (st, [])
  | .ok ns => processStale env ns st []

/-- One tick of `Start`: the three scan steps run strictly in sequence,
each absorbing its own failures. -/
def runCycle (env : Env) (st : MongoState) (k : Nat) :
    (MongoState × Nat) × List SendCall :=
  let r1 := CheckUpcomingTasks env st k
  let r2 := CheckUpcomingEvents env r1.1 r1.2
  let r3 := CheckUnreadNotifications env r2.1
  ((r3.1, r2.2), r3.2)

/-- Iterated task scan. -/
def runTasksIter (env : Env) : Nat → MongoState × Nat → MongoState × Nat
  | 0, p => p
  | k + 1, p => runTasksIter env k (CheckUpcomingTasks env p.1 p.2)

/-- Iterated event scan. -/
def runEventsIter (env : Env) : Nat → MongoState × Nat → MongoState × Nat
  | 0, p => p
  | k + 1, p => runEventsIter env k (CheckUpcomingEvents env p.1 p.2)

end Worker

/-! ### Generic lemmas about the collection primitives -/

theorem updateOne_of_no_match {p : α → Bool} {f : α → α} :
    ∀ {l : List α}, (∀ x ∈ l, ¬ p x = true) → updateOne p f l = (l, 0)
  | [], _ => rfl
  | x :: xs, h => by
    have hx : ¬ p x = true := h x (List.mem_cons_self x xs)
    have ih := updateOne_of_no_match (f := f) (l := xs)
      (fun y hy => h y (List.mem_cons_of_mem x hy))
    simp [updateOne, hx, ih]

theorem updateOne_self_comp {p : α → Bool} {f : α → α}
    (hp : ∀ x, p (f x) = p x) (hf : ∀ x, f (f x) = f x) :
    ∀ l : List α, updateOne p f (updateOne p f l).1 = updateOne p f l
  | [] => rfl
  | x :: xs => by
    by_cases hx : p x = true
    · simp [updateOne, hx, hp, hf]
    · have ih := updateOne_self_comp hp hf xs
      simp [updateOne, hx] at ih ⊢
      simp [ih]

theorem mem_of_mem_updateOne {p : α → Bool} {f : α → α} :
    ∀ {l : List α} {y : α}, y ∈ (updateOne p f l).1 →
      y ∈ l ∨ ∃ x ∈ l, p x = true ∧ y = f x := by
  intro l
  induction l with
  | nil => intro y hy; simp [updateOne] at hy
  | cons x xs ih =>
    intro y hy
    by_cases hx : p x = true
    · simp [updateOne, hx] at hy
      rcases hy with hy | hy
      · exact Or.inr ⟨x, List.mem_cons_self x xs, hx, hy⟩
      · exact Or.inl (List.mem_cons_of_mem x hy)
    · simp [updateOne, hx] at hy
      rcases hy with hy | hy
      · exact Or.inl (by simp [hy])
      · rcases ih hy with h | ⟨z, hz, hpz, hyz⟩
        · exact Or.inl (List.mem_cons_of_mem x h)
        · exact Or.inr ⟨z, List.mem_cons_of_mem x hz, hpz, hyz⟩

theorem updateOne_mem_of_mem {p : α → Bool} {f : α → α} :
    ∀ {l : List α} {x : α}, x ∈ l →
      x ∈ (updateOne p f l).1 ∨ f x ∈ (updateOne p f l).1 := by
  intro l
  induction l with
  | nil => intro x hx; simp at hx
  | cons y ys ih =>
    intro x hx
    by_cases hy : p y = true
    · rcases List.mem_cons.mp hx with hx | hx
      · subst hx; exact Or.inr (by simp [updateOne, hy])
      · exact Or.inl (by simp [updateOne, hy, hx])
    · rcases List.mem_cons.mp hx with hx | hx
      · subst hx; exact Or.inl (by simp [updateOne, hy])
      · rcases ih hx with h | h
        · exact Or.inl (by simp [updateOne, hy, h])
        · exact Or.inr (by simp [updateOne, hy, h])

theorem updateOne_map {p : α → Bool} {f : α → α} (g : α → β)
    (hg : ∀ x, g (f x) = g x) :
    ∀ l : List α, (updateOne p f l).1.map g = l.map g
  | [] => rfl
  | x :: xs => by
    by_cases hx : p x = true
    · simp [updateOne, hx, hg]
    · simp [updateOne, hx, updateOne_map g hg xs]

/-! ### Claim C8 -/

/-- C8: marking a notification emailed a second time is a no-op success on
both backends: the second document-store call also reports success and leaves
the state exactly as after the first call, and the in-memory stub trivially
does the same. -/
theorem claim_C8 (st : MongoState) (id : String) :
    (MongoStore.MarkNotificationAsEmailed id st).1 = .ok () ∧
    (MongoStore.MarkNotificationAsEmailed id
        (MongoStore.MarkNotificationAsEmailed id st).2).1 = .ok () ∧
    (MongoStore.MarkNotificationAsEmailed id
        (MongoStore.MarkNotificationAsEmailed id st).2).2 =
      (MongoStore.MarkNotificationAsEmailed id st).2 ∧
    ∀ ist : InMemoryState,
      InMemoryStore.MarkNotificationAsEmailed id ist = (.ok (), ist) := by
  refine ⟨rfl, rfl, ?_, fun _ => rfl⟩
  have h := updateOne_self_comp
    (p := fun n : Notification => n.id == id)
    (f := fun n => { n with emailed := true })
    (fun _ => rfl) (fun _ => rfl) st.notifications
  simp only [MongoStore.MarkNotificationAsEmailed]
  simp [h]

/-! ### Claim C10 -/

/-- C10: on the document-store backend, marking a nonexistent notification
emailed succeeds (the matched count is ignored) while marking it read
reports `ErrNotFound`; neither changes the state. -/
theorem claim_C10 (st : MongoState) (id : String)
    (h : ∀ n ∈ st.notifications, n.id ≠ id) :
    (MongoStore.MarkNotificationAsEmailed id st).1 = .ok () ∧
    (MongoStore.MarkNotificationAsEmailed id st).2 = st ∧
    (MongoStore.MarkNotificationAsRead id st).1 = .error .notFound ∧
    (MongoStore.MarkNotificationAsRead id st).2 = st := by
  have hb : ∀ n ∈ st.notifications, ¬ (n.id == id) = true := by
    intro n hn hc
    exact h n hn (by simpa using hc)
  have h1 := updateOne_of_no_match
    (f := fun n : Notification => { n with emailed := true }) hb
  have h2 := updateOne_of_no_match
    (f := fun n : Notification => { n with read := true }) hb
  refine ⟨rfl, ?_, ?_, ?_⟩
  · simp [MongoStore.MarkNotificationAsEmailed, h1]
  · simp [MongoStore.MarkNotificationAsRead, h2]
  · simp [MongoStore.MarkNotificationAsRead, h2]

/-- Fixture: a notification record. -/
def n0 : Notification :=
  { id := "n1", userID := "u1", message := "m", type := "TASK_DUE"
    referenceID := "r1", read := false
    createdAt := "2026-01-01T00:00:00Z", emailed := false }

/-- Witness for C10 at a concrete state: the store holds only `n0`,
and the queried id `zzz` does not exist. -/
theorem claim_C10_witness :
    (MongoStore.MarkNotificationAsEmailed "zzz"
      { emptyMongo with notifications := [n0] }).1 = .ok () ∧
    (MongoStore.MarkNotificationAsRead "zzz"
      { emptyMongo with notifications := [n0] }).1 = .error .notFound := by
  have h := claim_C10 { emptyMongo with notifications := [n0] } "zzz"
    (by intro n hn; simp [emptyMongo] at hn; subst hn; decide)
  exact ⟨h.1, h.2.2.1⟩

/-! ### Claim C1 -/

/-- Fixture: `time.ParseDuration` restricted to the worker's "24h"
(1440 minutes, instants measured in minutes). -/
def pd24 : String → Option Int := fun s => if s == "24h" then some 1440 else none

/-- Fixture: a timestamp parser resolving one concrete due string to
instant 1440. -/
def parse0 : String → Option Int :=
  fun s => if s == "2026-01-02 00:00" then some 1440 else none

/-- Fixture: a non-completed task whose deadline parses to exactly
`now + d` when `now = 0` and `d = 1440`. -/
def t0 : Task :=
  { id := "t1", title := "PS", description := "", courseID := "c1"
    userID := "u1", dueDate := "2026-01-02", dueTime := "00:00"
    completed := false, hasReminder := false }

/-- Fixture: a store holding only `t0`. -/
def st1 : MongoState := { emptyMongo with tasks := [t0] }

/-- C1 counterexample: with `now = 0` and the valid duration string "24h"
parsing to `d = 1440`, the non-completed task `t0` has its deadline exactly
at `now + d`, so the claimed half-open interval `(now, now+d]` includes it —
yet `GetTasksDueIn` returns the empty list. -/
theorem claim_C1_cex :
    pd24 "24h" = some 1440 ∧
    t0 ∈ st1.tasks ∧
    t0.completed = false ∧
    parse0 (MongoStore.taskDueStr t0) = some 1440 ∧
    ((0 : Int) < 1440 ∧ (1440 : Int) ≤ 0 + 1440) ∧
    MongoStore.GetTasksDueIn pd24 parse0 0 "24h" st1 = .ok [] := by
  refine ⟨rfl, by simp [st1], rfl, rfl, by norm_num, ?_⟩
  rfl

/-- C1 (amended): for every valid duration string (parsing to `d`), the
due-work queries return exactly the non-completed work items of the given
kind whose deadline parses and falls in the open interval `(now, now+d)`:
an item due exactly at `now` is excluded, and an item due exactly at
`now + d` is excluded as well. -/
theorem claim_C1 (pd parse : String → Option Int) (now d : Int)
    (dur : String) (st : MongoState) (h : pd dur = some d) :
    (∃ l, MongoStore.GetTasksDueIn pd parse now dur st = .ok l ∧
      ∀ t, t ∈ l ↔ t ∈ st.tasks ∧ t.completed = false ∧
        ∃ due, parse (MongoStore.taskDueStr t) = some due ∧
          now < due ∧ due < now + d) ∧
    (∃ l, MongoStore.GetEventsStartingIn pd parse now dur st = .ok l ∧
      ∀ e, e ∈ l ↔ e ∈ st.events ∧
        ∃ s, parse (MongoStore.eventStartStr e) = some s ∧
          now < s ∧ s < now + d) := by
  constructor
  · refine ⟨(st.tasks.filter (fun t => t.completed == false)).filter
        (fun t => match parse (MongoStore.taskDueStr t) with
          | some due => decide (now < due) && decide (due < now + d)
          | none => false), ?_, ?_⟩
    · simp only [MongoStore.GetTasksDueIn, h]
    intro t
    simp only [List.mem_filter]
    constructor
    · rintro ⟨⟨hmem, hc⟩, hw⟩
      refine ⟨hmem, by simpa using hc, ?_⟩
      cases hp : parse (MongoStore.taskDueStr t) with
      | none => rw [hp] at hw; exact absurd hw (by simp)
      | some due =>
        rw [hp] at hw
        simp only [Bool.and_eq_true, decide_eq_true_eq] at hw
        exact ⟨due, rfl, hw.1, hw.2⟩
    · rintro ⟨hmem, hc, due, hp, h1, h2⟩
      refine ⟨⟨hmem, by simp [hc]⟩, ?_⟩
      rw [hp]
      simp [h1, h2]
  · refine ⟨st.events.filter
        (fun e => match parse (MongoStore.eventStartStr e) with
          | some s => decide (now < s) && decide (s < now + d)
          | none => false), ?_, ?_⟩
    · simp only [MongoStore.GetEventsStartingIn, h]
    intro e
    simp only [List.mem_filter]
    constructor
    · rintro ⟨hmem, hw⟩
      refine ⟨hmem, ?_⟩
      cases hp : parse (MongoStore.eventStartStr e) with
      | none => rw [hp] at hw; exact absurd hw (by simp)
      | some s =>
        rw [hp] at hw
        simp only [Bool.and_eq_true, decide_eq_true_eq] at hw
        exact ⟨s, rfl, hw.1, hw.2⟩
    · rintro ⟨hmem, s, hp, h1, h2⟩
      refine ⟨hmem, ?_⟩
      rw [hp]
      simp [h1, h2]

/-- Fixture: an event starting strictly inside the scan window. -/
def e0 : Event :=
  { id := "e1", title := "Lecture", description := "", courseID := "c1"
    userID := "u1", date := "2026-01-01", startTime := "12:00"
    endTime := "13:00", type := "class" }

/-- Fixture: a parser placing `t0` strictly inside the window and `e0` at
instant 720. -/
def parse1 : String → Option Int := fun s =>
  if s == "2026-01-02 00:00" then some 720
  else if s == "2026-01-01 12:00" then some 720
  else none

/-- Fixture: a store holding `t0` and `e0`. -/
def st2 : MongoState := { emptyMongo with tasks := [t0], events := [e0] }

/-- Witness for the amended C1 at a concrete input: both queries return
exactly the items strictly inside `(0, 1440)`. -/
theorem claim_C1_witness :
    pd24 "24h" = some 1440 ∧
    (∃ l, MongoStore.GetTasksDueIn pd24 parse1 0 "24h" st2 = .ok l ∧
      ∀ t, t ∈ l ↔ t ∈ st2.tasks ∧ t.completed = false ∧
        ∃ due, parse1 (MongoStore.taskDueStr t) = some due ∧
          0 < due ∧ due < 0 + 1440) ∧
    (∃ l, MongoStore.GetEventsStartingIn pd24 parse1 0 "24h" st2 = .ok l ∧
      ∀ e, e ∈ l ↔ e ∈ st2.events ∧
        ∃ s, parse1 (MongoStore.eventStartStr e) = some s ∧
          0 < s ∧ s < 0 + 1440) :=
  ⟨rfl, (claim_C1 pd24 parse1 0 1440 "24h" st2 rfl).1,
    (claim_C1 pd24 parse1 0 1440 "24h" st2 rfl).2⟩

/-! ### Claim C2: counterexample -/

/-- Fixture: a user record with every field non-zero-valued. -/
def u2 : User :=
  { id := "u9", name := "Nina", email := "nina@example.com", password := "pw"
    isVerified := false, verificationToken := "tk" }

/-- C2 counterexample: six concrete divergences between the two backends
under identical operation sequences, none of them an id/timestamp
auto-generation or record-ordering difference.
(1) After `createNotification n0`, the dedup query finds `n0` on the
document store but reports `ErrNotFound` in process (notification stub).
(2) After `createTask t0`, the due-work query returns `[t0]` on the
document store and `[]` in process (worker-helper stub).
(3) Creating two tasks under the same id leaves two records on the
document store and one in process — the list results differ even as
multisets.
(4) Creating a task with an empty id, then `getTask ""`: the in-process
store returns the task, the document store `ErrNotFound` (it stored the
record under a generated id), an ok-versus-NotFound divergence beyond the
generated id value itself.
(5) `updateUser` with an all-zero-valued update returns the zero `User`
on the document store but the unchanged existing record in process.
(6) `updateUserPassword` with an empty password stores `""` and returns
the updated record on the document store, but is a no-op returning the
zero `User` in process. -/
theorem claim_C2_cex :
    (MongoStore.GetNotificationByReferenceID "r1" "TASK_DUE"
      (MongoStore.CreateNotification "g1" "ts" n0 emptyMongo).2 = .ok n0 ∧
     InMemoryStore.GetNotificationByReferenceID "r1" "TASK_DUE"
      (InMemoryStore.CreateNotification n0 emptyInMemory).2 =
        .error .notFound) ∧
    (MongoStore.GetTasksDueIn pd24 parse1 0 "24h"
      (MongoStore.CreateTask "g1" t0 emptyMongo).2 = .ok [t0] ∧
     InMemoryStore.GetTasksDueIn "24h"
      (InMemoryStore.CreateTask t0 emptyInMemory).2 = .ok []) ∧
    ((MongoStore.GetTasks "u1"
      (MongoStore.CreateTask "g2" { t0 with title := "B" }
        (MongoStore.CreateTask "g1" t0 emptyMongo).2).2).length = 2 ∧
     (InMemoryStore.GetTasks "u1"
      (InMemoryStore.CreateTask { t0 with title := "B" }
        (InMemoryStore.CreateTask t0 emptyInMemory).2).2).length = 1) ∧
    (MongoStore.GetTask ""
      (MongoStore.CreateTask "gen9" { t0 with id := "" } emptyMongo).2 =
        .error .notFound ∧
     InMemoryStore.GetTask ""
      (InMemoryStore.CreateTask { t0 with id := "" } emptyInMemory).2 =
        .ok { t0 with id := "" }) ∧
    ((MongoStore.UpdateUser "u9" ⟨"", "", "", "", false, ""⟩
      (MongoStore.CreateUser "g1" u2 emptyMongo).2).1 =
        .ok ⟨"", "", "", "", false, ""⟩ ∧
     (InMemoryStore.UpdateUser "u9" ⟨"", "", "", "", false, ""⟩
      (InMemoryStore.CreateUser u2 emptyInMemory).2).1 = .ok u2 ∧
     u2 ≠ (⟨"", "", "", "", false, ""⟩ : User)) ∧
    ((MongoStore.UpdateUserPassword "u9" ""
      (MongoStore.CreateUser "g1" u2 emptyMongo).2).1 =
        .ok { u2 with password := "" } ∧
     (InMemoryStore.UpdateUserPassword "u9" ""
      (InMemoryStore.CreateUser u2 emptyInMemory).2).1 =
        .ok ⟨"", "", "", "", false, ""⟩ ∧
     { u2 with password := "" } ≠ (⟨"", "", "", "", false, ""⟩ : User)) := by
  refine ⟨⟨rfl, rfl⟩, ⟨rfl, rfl⟩, ⟨rfl, rfl⟩, ⟨rfl, rfl⟩,
    ⟨rfl, rfl, by decide⟩, ⟨rfl, rfl, by decide⟩⟩

/-! ### Store operations and claim C9 -/

/-- Every state-mutating store operation of the document-store backend
(the read-only queries are separate pure functions and do not touch the
state by construction). -/
inductive StoreOp where
  | createTask (genId : String) (t : Task)
  | updateTask (id : String) (t : Task)
  | deleteTask (id : String)
  | createCourse (genId : String) (c : Course)
  | createEvent (genId : String) (e : Event)
  | createUser (genId : String) (u : User)
  | updateUser (id : String) (u : User)
  | updateUserPassword (id : String) (pw : String)
  | markUserVerified (id : String)
  | createNotification (genId : String) (nowStr : String) (n : Notification)
  | markNotificationAsRead (id : String)
  | markNotificationAsEmailed (id : String)
  deriving Repr

/-- The state transformer of a store operation. -/
def applyOp : StoreOp → MongoState → MongoState
  | .createTask g t, st => (MongoStore.CreateTask g t st).2
  | .updateTask id t, st => (MongoStore.UpdateTask id t st).2
  | .deleteTask id, st => (MongoStore.DeleteTask id st).2
  | .createCourse g c, st => (MongoStore.CreateCourse g c st).2
  | .createEvent g e, st => (MongoStore.CreateEvent g e st).2
  | .createUser g u, st => (MongoStore.CreateUser g u st).2
  | .updateUser id u, st => (MongoStore.UpdateUser id u st).2
  | .updateUserPassword id pw, st => (MongoStore.UpdateUserPassword id pw st).2
  | .markUserVerified id, st => (MongoStore.MarkUserVerified id st).2
  | .createNotification g ns n, st => (MongoStore.CreateNotification g ns n st).2
  | .markNotificationAsRead id, st => (MongoStore.MarkNotificationAsRead id st).2
  | .markNotificationAsEmailed id, st =>
    (MongoStore.MarkNotificationAsEmailed id st).2

/-- C9: the emailed flag is monotonic. For every store state, every store
operation and every notification record with `emailed = true`, the state
after the operation still holds a record with the same id and
`emailed = true`. -/
theorem claim_C9 (op : StoreOp) (st : MongoState) (n : Notification)
    (hmem : n ∈ st.notifications) (he : n.emailed = true) :
    ∃ n' ∈ (applyOp op st).notifications, n'.id = n.id ∧ n'.emailed = true := by
  cases op with
  | createTask g t => exact ⟨n, hmem, rfl, he⟩
  | updateTask id t =>
    refine ⟨n, ?_, rfl, he⟩
    simp only [applyOp, MongoStore.UpdateTask]
    split <;> exact hmem
  | deleteTask id =>
    refine ⟨n, ?_, rfl, he⟩
    simp only [applyOp, MongoStore.DeleteTask]
    split <;> exact hmem
  | createCourse g c => exact ⟨n, hmem, rfl, he⟩
  | createEvent g e => exact ⟨n, hmem, rfl, he⟩
  | createUser g u => exact ⟨n, hmem, rfl, he⟩
  | updateUser id u =>
    refine ⟨n, ?_, rfl, he⟩
    simp only [applyOp, MongoStore.UpdateUser]
    split
    · exact hmem
    · split <;> exact hmem
  | updateUserPassword id pw =>
    refine ⟨n, ?_, rfl, he⟩
    simp only [applyOp, MongoStore.UpdateUserPassword]
    split <;> exact hmem
  | markUserVerified id =>
    refine ⟨n, ?_, rfl, he⟩
    simp only [applyOp, MongoStore.MarkUserVerified]
    split <;> exact hmem
  | createNotification g ns nn =>
    refine ⟨n, ?_, rfl, he⟩
    simp only [applyOp, MongoStore.CreateNotification]
    exact List.mem_append_left _ hmem
  | markNotificationAsRead id =>
    have hres : (applyOp (.markNotificationAsRead id) st).notifications =
        (updateOne (fun m : Notification => m.id == id)
          (fun m => { m with read := true }) st.notifications).1 := by
      simp only [applyOp, MongoStore.MarkNotificationAsRead]
      split <;> rfl
    rcases updateOne_mem_of_mem
      (p := fun m : Notification => m.id == id)
      (f := fun m => { m with read := true }) hmem with h | h
    · exact ⟨n, by rw [hres]; exact h, rfl, he⟩
    · exact ⟨{ n with read := true }, by rw [hres]; exact h, rfl, he⟩
  | markNotificationAsEmailed id =>
    rcases updateOne_mem_of_mem
      (p := fun m : Notification => m.id == id)
      (f := fun m => { m with emailed := true }) hmem with h | h
    · exact ⟨n, h, rfl, he⟩
    · exact ⟨_, h, rfl, rfl⟩

/-- Witness for C9 at a concrete input: marking `n1` read keeps the emailed
flag of the already-emailed record `n1`. -/
theorem claim_C9_witness :
    ∃ n' ∈ (applyOp (.markNotificationAsRead "n1")
        { emptyMongo with notifications := [{ n0 with emailed := true }] }).notifications,
      n'.id = ({ n0 with emailed := true } : Notification).id ∧
      n'.emailed = true :=
  claim_C9 (.markNotificationAsRead "n1")
    { emptyMongo with notifications := [{ n0 with emailed := true }] }
    { n0 with emailed := true } (by simp [emptyMongo]) rfl

/-! ### Claim C4 -/

/-- All notification records carrying id `i` (at most one, under the store's
unique-id invariant) have the emailed flag set. -/
def allEmailedAt (st : MongoState) (i : String) : Prop :=
  ∀ m ∈ st.notifications, m.id = i → m.emailed = true

/-- After `MarkNotificationAsEmailed i`, every record with id `i` is emailed
(under pairwise-distinct notification ids there is at most one such record,
and it is the one the update touched). -/
theorem updateOne_emailed_all :
    ∀ {l : List Notification} {i : String},
      (l.map (fun m => m.id)).Nodup →
      ∀ y ∈ (updateOne (fun m => m.id == i)
          (fun m => { m with emailed := true }) l).1,
        y.id = i → y.emailed = true := by
  intro l
  induction l with
  | nil => intro i _ y hy; simp [updateOne] at hy
  | cons x xs ih =>
    intro i hnd y hy hid
    rw [List.map_cons, List.nodup_cons] at hnd
    have hx_not : x.id ∉ xs.map (fun m => m.id) := hnd.1
    have hnd' : (xs.map (fun m => m.id)).Nodup := hnd.2
    by_cases hx : (x.id == i) = true
    · simp only [updateOne, hx, if_pos] at hy
      rcases List.mem_cons.mp hy with hy | hy
      · subst hy; rfl
      · exfalso
        have hxi : x.id = i := by simpa using hx
        exact hx_not (by
          rw [hxi, ← hid]
          exact List.mem_map_of_mem _ hy)
    · simp only [updateOne, hx, if_neg, Bool.false_eq_true,
        not_false_eq_true] at hy
      rcases List.mem_cons.mp hy with hy | hy
      · subst hy; exact absurd (by simp [hid]) hx
      · exact ih hnd' y hy hid

/-- The id `CreateNotification` stores: the caller's id, or the generated
one when absent. -/
def createdNotifId (g : String) (n : Notification) : String :=
  if n.id == "" then g else n.id

theorem createNotification_fst_id (g ns : String) (n : Notification)
    (st : MongoState) :
    (MongoStore.CreateNotification g ns n st).1.id = createdNotifId g n := by
  simp only [MongoStore.CreateNotification, createdNotifId]
  split <;> split <;> rfl

/-- An operation avoids notification id `i` when it does not insert a new
notification record under that id (ids are generated by uuid in the code,
so this holds for every realistically generated id). -/
def opAvoids (i : String) : StoreOp → Prop
  | .createNotification g _ n => createdNotifId g n ≠ i
  | _ => True

/-- `allEmailedAt` is preserved by every store operation that does not
insert a fresh notification under the same id. -/
theorem allEmailedAt_applyOp (i : String) (op : StoreOp) (st : MongoState)
    (h : allEmailedAt st i) (hop : opAvoids i op) :
    allEmailedAt (applyOp op st) i := by
  cases op with
  | createTask g t => exact h
  | updateTask id t =>
    have hres : (applyOp (.updateTask id t) st).notifications =
        st.notifications := by
      simp only [applyOp, MongoStore.UpdateTask]
      split <;> rfl
    intro m hm; rw [hres] at hm; exact h m hm
  | deleteTask id =>
    have hres : (applyOp (.deleteTask id) st).notifications =
        st.notifications := by
      simp only [applyOp, MongoStore.DeleteTask]
      split <;> rfl
    intro m hm; rw [hres] at hm; exact h m hm
  | createCourse g c => exact h
  | createEvent g e => exact h
  | createUser g u => exact h
  | updateUser id u =>
    have hres : (applyOp (.updateUser id u) st).notifications =
        st.notifications := by
      simp only [applyOp, MongoStore.UpdateUser]
      split
      · rfl
      · split <;> rfl
    intro m hm; rw [hres] at hm; exact h m hm
  | updateUserPassword id pw =>
    have hres : (applyOp (.updateUserPassword id pw) st).notifications =
        st.notifications := by
      simp only [applyOp, MongoStore.UpdateUserPassword]
      split <;> rfl
    intro m hm; rw [hres] at hm; exact h m hm
  | markUserVerified id =>
    have hres : (applyOp (.markUserVerified id) st).notifications =
        st.notifications := by
      simp only [applyOp, MongoStore.MarkUserVerified]
      split <;> rfl
    intro m hm; rw [hres] at hm; exact h m hm
  | createNotification g ns n =>
    intro m hm hid
    simp only [applyOp, MongoStore.CreateNotification] at hm
    rcases List.mem_append.mp hm with hm | hm
    · exact h m hm hid
    · exfalso
      have hm' : m = (MongoStore.CreateNotification g ns n st).1 := by
        simpa [MongoStore.CreateNotification] using hm
      apply hop
      rw [← createNotification_fst_id g ns n st, ← hm', hid]
  | markNotificationAsRead id =>
    have hres : (applyOp (.markNotificationAsRead id) st).notifications =
        (updateOne (fun m : Notification => m.id == id)
          (fun m => { m with read := true }) st.notifications).1 := by
      simp only [applyOp, MongoStore.MarkNotificationAsRead]
      split <;> rfl
    intro m hm hid
    rw [hres] at hm
    rcases mem_of_mem_updateOne hm with hm | ⟨x, hx, _, rfl⟩
    · exact h m hm hid
    · exact h x hx hid
  | markNotificationAsEmailed id =>
    intro m hm hid
    rcases mem_of_mem_updateOne hm with hm | ⟨x, hx, _, rfl⟩
    · exact h m hm hid
    · rfl

/-- Sequential application of store operations. -/
def applyOps (ops : List StoreOp) (st : MongoState) : MongoState :=
  ops.foldl (fun s op => applyOp op s) st

theorem allEmailedAt_applyOps (i : String) :
    ∀ (ops : List StoreOp) (st : MongoState), allEmailedAt st i →
      (∀ op ∈ ops, opAvoids i op) → allEmailedAt (applyOps ops st) i
  | [], _, h, _ => h
  | op :: ops, st, h, hops =>
    allEmailedAt_applyOps i ops (applyOp op st)
      (allEmailedAt_applyOp i op st h (hops op (List.mem_cons_self op ops)))
      (fun o ho => hops o (List.mem_cons_of_mem op ho))

/-- C4: once `MarkNotificationAsEmailed n.id` has succeeded (it always
reports success), no subsequent `GetUnreadNotificationsOlderThan` call
returns a record with `n`'s id — whatever its read flag — and this stays
true across any further store operations that do not insert a fresh
notification under that same id. -/
theorem claim_C4 (st : MongoState) (n : Notification)
    (hnd : (st.notifications.map (fun m => m.id)).Nodup)
    (ops : List StoreOp) (hops : ∀ op ∈ ops, opAvoids n.id op) :
    (MongoStore.MarkNotificationAsEmailed n.id st).1 = .ok () ∧
    ∀ pd fmt now dur l,
      MongoStore.GetUnreadNotificationsOlderThan pd fmt now dur
        (applyOps ops (MongoStore.MarkNotificationAsEmailed n.id st).2) =
          .ok l →
      ∀ m ∈ l, m.id ≠ n.id := by
  refine ⟨rfl, ?_⟩
  have h1 : allEmailedAt (MongoStore.MarkNotificationAsEmailed n.id st).2
      n.id := by
    intro m hm hid
    exact updateOne_emailed_all hnd m hm hid
  have h2 := allEmailedAt_applyOps n.id ops _ h1 hops
  intro pd fmt now dur l hq m hml hid
  simp only [MongoStore.GetUnreadNotificationsOlderThan] at hq
  rcases hpd : pd dur with _ | d
  · rw [hpd] at hq; exact absurd hq (by simp)
  · rw [hpd] at hq
    have hl := Except.ok.inj hq
    rw [← hl] at hml
    have hml' := List.mem_filter.mp hml
    have hm_emailed : m.emailed = false := by
      have := hml'.2
      simp only [Bool.and_eq_true, Bool.not_eq_true'] at this
      exact this.1.2
    have := h2 m hml'.1 hid
    rw [this] at hm_emailed
    exact absurd hm_emailed (by simp)

/-- Fixture: `time.ParseDuration` restricted to the worker's "1h" (60
minutes). -/
def pd1h : String → Option Int := fun s => if s == "1h" then some 60 else none

/-- Fixture: a degenerate timestamp formatter. -/
def fmt0 : Int → String := fun _ => "9999"

/-- Witness for C4 at a concrete input: after marking `n0` emailed and then
marking it read, the concrete stale-unread query returns the empty list,
which C4 certifies contains no record with `n0`'s id. -/
theorem claim_C4_witness :
    (MongoStore.MarkNotificationAsEmailed n0.id
      { emptyMongo with notifications := [n0] }).1 = .ok () ∧
    MongoStore.GetUnreadNotificationsOlderThan pd1h fmt0 0 "1h"
      (applyOps [.markNotificationAsRead n0.id]
        (MongoStore.MarkNotificationAsEmailed n0.id
          { emptyMongo with notifications := [n0] }).2) = .ok [] ∧
    ∀ m ∈ ([] : List Notification), m.id ≠ n0.id := by
  have h := claim_C4 { emptyMongo with notifications := [n0] } n0
    (by simp [emptyMongo]) [.markNotificationAsRead n0.id]
    (by intro op hop; simp at hop; subst hop; trivial)
  exact ⟨h.1, by rfl, h.2 pd1h fmt0 0 "1h" [] (by rfl)⟩

/-! ### Infrastructure for the stale-notification scan (claims C5, C6, C7) -/

/-- All notification records carrying id `i` still have the emailed flag
clear. -/
def allUnemailedAt (st : MongoState) (i : String) : Prop :=
  ∀ m ∈ st.notifications, m.id = i → m.emailed = false

theorem getUser_markEmailed (x j : String) (st : MongoState) :
    MongoStore.GetUser x (MongoStore.MarkNotificationAsEmailed j st).2 =
      MongoStore.GetUser x st := rfl

theorem markEmailed_users (j : String) (st : MongoState) :
    (MongoStore.MarkNotificationAsEmailed j st).2.users = st.users := rfl

theorem markEmailed_ids (j : String) (st : MongoState) :
    (MongoStore.MarkNotificationAsEmailed j st).2.notifications.map
        (fun m => m.id) =
      st.notifications.map (fun m => m.id) :=
  updateOne_map (p := fun n : Notification => n.id == j)
    (f := fun n => { n with emailed := true })
    (fun m => m.id) (fun _ => rfl) st.notifications

theorem markEmailed_allEmailedAt (i j : String) (st : MongoState)
    (h : allEmailedAt st i) :
    allEmailedAt (MongoStore.MarkNotificationAsEmailed j st).2 i := by
  intro m hm hid
  rcases mem_of_mem_updateOne hm with hm | ⟨x, hx, _, rfl⟩
  · exact h m hm hid
  · rfl

theorem markEmailed_allUnemailedAt (i j : String) (st : MongoState)
    (hne : j ≠ i) (h : allUnemailedAt st i) :
    allUnemailedAt (MongoStore.MarkNotificationAsEmailed j st).2 i := by
  intro m hm hid
  rcases mem_of_mem_updateOne hm with hm | ⟨x, hx, hpx, rfl⟩
  · exact h m hm hid
  · exact absurd hid (by
      have : x.id = j := by simpa using hpx
      simpa [this] using hne)

/-- Records with distinct-id stores are determined by their id. -/
theorem eq_of_id_eq :
    ∀ {l : List Notification},
      (l.map (fun m => m.id)).Nodup →
      ∀ {a b : Notification}, a ∈ l → b ∈ l → a.id = b.id → a = b := by
  intro l
  induction l with
  | nil => intro _ a b ha; simp at ha
  | cons x xs ih =>
    intro hnd a b ha hb hid
    rw [List.map_cons, List.nodup_cons] at hnd
    rcases List.mem_cons.mp ha with ha | ha <;>
      rcases List.mem_cons.mp hb with hb | hb
    · rw [ha, hb]
    · exfalso
      apply hnd.1
      have hmem : b.id ∈ xs.map (fun m => m.id) :=
        List.mem_map_of_mem (fun m => m.id) hb
      rw [ha] at hid
      rw [← hid] at hmem
      exact hmem
    · exfalso
      apply hnd.1
      have hmem : a.id ∈ xs.map (fun m => m.id) :=
        List.mem_map_of_mem (fun m => m.id) ha
      rw [hb] at hid
      rw [hid] at hmem
      exact hmem
    · exact ih hnd.2 ha hb hid

theorem processStale_users (env : Env) :
    ∀ (ns : List Notification) (st : MongoState) (tr : List Worker.SendCall),
      (Worker.processStale env ns st tr).1.users = st.users
  | [], _, _ => rfl
  | n :: ns, st, tr => by
    simp only [Worker.processStale]
    cases hu : MongoStore.GetUser n.userID st with
    | error e => exact processStale_users env ns st tr
    | ok u =>
      cases hv : u.isVerified with
      | false =>
        simp only [hv, Bool.not_false, if_pos]
        rw [processStale_users env ns _ _, markEmailed_users]
      | true =>
        simp only [hv, Bool.not_true, Bool.false_eq_true, if_neg,
          not_false_eq_true]
        cases hs : env.send u.email Worker.staleSubject n.message with
        | true =>
          simp only [if_pos]
          rw [processStale_users env ns _ _, markEmailed_users]
        | false =>
          simp only [Bool.false_eq_true, if_neg, not_false_eq_true]
          exact processStale_users env ns st _

theorem processStale_ids (env : Env) :
    ∀ (ns : List Notification) (st : MongoState) (tr : List Worker.SendCall),
      (Worker.processStale env ns st tr).1.notifications.map (fun m => m.id) =
        st.notifications.map (fun m => m.id)
  | [], _, _ => rfl
  | n :: ns, st, tr => by
    simp only [Worker.processStale]
    cases hu : MongoStore.GetUser n.userID st with
    | error e => exact processStale_ids env ns st tr
    | ok u =>
      cases hv : u.isVerified with
      | false =>
        simp only [hv, Bool.not_false, if_pos]
        rw [processStale_ids env ns _ _, markEmailed_ids]
      | true =>
        simp only [hv, Bool.not_true, Bool.false_eq_true, if_neg,
          not_false_eq_true]
        cases hs : env.send u.email Worker.staleSubject n.message with
        | true =>
          simp only [if_pos]
          rw [processStale_ids env ns _ _, markEmailed_ids]
        | false =>
          simp only [Bool.false_eq_true, if_neg, not_false_eq_true]
          exact processStale_ids env ns st _

theorem processStale_allEmailedAt (env : Env) (i : String) :
    ∀ (ns : List Notification) (st : MongoState) (tr : List Worker.SendCall),
      allEmailedAt st i → allEmailedAt (Worker.processStale env ns st tr).1 i
  | [], _, _, h => h
  | n :: ns, st, tr, h => by
    simp only [Worker.processStale]
    cases hu : MongoStore.GetUser n.userID st with
    | error e => exact processStale_allEmailedAt env i ns st tr h
    | ok u =>
      cases hv : u.isVerified with
      | false =>
        simp only [hv, Bool.not_false, if_pos]
        exact processStale_allEmailedAt env i ns _ _
          (markEmailed_allEmailedAt i n.id st h)
      | true =>
        simp only [hv, Bool.not_true, Bool.false_eq_true, if_neg,
          not_false_eq_true]
        cases hs : env.send u.email Worker.staleSubject n.message with
        | true =>
          simp only [if_pos]
          exact processStale_allEmailedAt env i ns _ _
            (markEmailed_allEmailedAt i n.id st h)
        | false =>
          simp only [Bool.false_eq_true, if_neg, not_false_eq_true]
          exact processStale_allEmailedAt env i ns st _ h

theorem processStale_allUnemailedAt (env : Env) (i : String) :
    ∀ (ns : List Notification) (st : MongoState) (tr : List Worker.SendCall),
      (∀ m ∈ ns, m.id ≠ i) → allUnemailedAt st i →
      allUnemailedAt (Worker.processStale env ns st tr).1 i
  | [], _, _, _, h => h
  | n :: ns, st, tr, havoid, h => by
    have hn : n.id ≠ i := havoid n (List.mem_cons_self n ns)
    have havoid' : ∀ m ∈ ns, m.id ≠ i :=
      fun m hm => havoid m (List.mem_cons_of_mem n hm)
    simp only [Worker.processStale]
    cases hu : MongoStore.GetUser n.userID st with
    | error e => exact processStale_allUnemailedAt env i ns st tr havoid' h
    | ok u =>
      cases hv : u.isVerified with
      | false =>
        simp only [hv, Bool.not_false, if_pos]
        exact processStale_allUnemailedAt env i ns _ _ havoid'
          (markEmailed_allUnemailedAt i n.id st hn h)
      | true =>
        simp only [hv, Bool.not_true, Bool.false_eq_true, if_neg,
          not_false_eq_true]
        cases hs : env.send u.email Worker.staleSubject n.message with
        | true =>
          simp only [if_pos]
          exact processStale_allUnemailedAt env i ns _ _ havoid'
            (markEmailed_allUnemailedAt i n.id st hn h)
        | false =>
          simp only [Bool.false_eq_true, if_neg, not_false_eq_true]
          exact processStale_allUnemailedAt env i ns st _ havoid' h

theorem processStale_trace_avoid (env : Env) (i : String) :
    ∀ (ns : List Notification) (st : MongoState) (tr : List Worker.SendCall),
      (∀ m ∈ ns, m.id ≠ i) →
      (Worker.processStale env ns st tr).2.filter (fun c => c.notifId == i) =
        tr.filter (fun c => c.notifId == i)
  | [], _, _, _ => rfl
  | n :: ns, st, tr, havoid => by
    have hn : n.id ≠ i := havoid n (List.mem_cons_self n ns)
    have havoid' : ∀ m ∈ ns, m.id ≠ i :=
      fun m hm => havoid m (List.mem_cons_of_mem n hm)
    simp only [Worker.processStale]
    cases hu : MongoStore.GetUser n.userID st with
    | error e => exact processStale_trace_avoid env i ns st tr havoid'
    | ok u =>
      cases hv : u.isVerified with
      | false =>
        simp only [hv, Bool.not_false, if_pos]
        exact processStale_trace_avoid env i ns _ _ havoid'
      | true =>
        simp only [hv, Bool.not_true, Bool.false_eq_true, if_neg,
          not_false_eq_true]
        cases hs : env.send u.email Worker.staleSubject n.message with
        | true =>
          simp only [if_pos]
          rw [processStale_trace_avoid env i ns _ _ havoid']
          simp [hn]
        | false =>
          simp only [Bool.false_eq_true, if_neg, not_false_eq_true]
          rw [processStale_trace_avoid env i ns _ _ havoid']
          simp [hn]

/-- Processing a stale batch containing `n`, whose owner exists and is
unverified: `n` ends up marked emailed and the send trace gains no entry
for `n`. -/
theorem processStale_unverified (env : Env) :
    ∀ (ns : List Notification) (st : MongoState) (tr : List Worker.SendCall)
      (n : Notification) (u : User),
      n ∈ ns →
      (ns.map (fun m => m.id)).Nodup →
      (st.notifications.map (fun m => m.id)).Nodup →
      MongoStore.GetUser n.userID st = .ok u →
      u.isVerified = false →
      allEmailedAt (Worker.processStale env ns st tr).1 n.id ∧
      (Worker.processStale env ns st tr).2.filter
          (fun c => c.notifId == n.id) =
        tr.filter (fun c => c.notifId == n.id)
  | [], _, _, _, _, hmem, _, _, _, _ => absurd hmem (by simp)
  | m :: rest, st, tr, n, u, hmem, hndns, hndst, hu, hv => by
    rw [List.map_cons, List.nodup_cons] at hndns
    simp only [Worker.processStale]
    rcases List.mem_cons.mp hmem with heq | hmem'
    · subst heq
      simp only [hu, hv, Bool.not_false, if_pos]
      constructor
      · apply processStale_allEmailedAt
        intro m' hm' hid
        exact updateOne_emailed_all hndst m' hm' hid
      · apply processStale_trace_avoid
        intro m' hm' hid
        exact absurd (hid ▸ List.mem_map_of_mem (fun m => m.id) hm') hndns.1
    · have hmne : (m.id == n.id) = false := by
        rw [beq_eq_false_iff_ne]
        intro hcontra
        exact hndns.1 (hcontra ▸ List.mem_map_of_mem (fun x => x.id) hmem')
      cases hum : MongoStore.GetUser m.userID st with
      | error e =>
        exact processStale_unverified env rest st tr n u hmem' hndns.2
          hndst hu hv
      | ok um =>
        cases hvm : um.isVerified with
        | false =>
          simp only [hvm, Bool.not_false, if_pos]
          refine processStale_unverified env rest _ tr n u hmem' hndns.2 ?_ ?_ hv
          · rw [markEmailed_ids]; exact hndst
          · rw [getUser_markEmailed]; exact hu
        | true =>
          simp only [hvm, Bool.not_true, Bool.false_eq_true, if_neg,
            not_false_eq_true]
          cases hs : env.send um.email Worker.staleSubject m.message with
          | true =>
            simp only [if_pos]
            have ih := processStale_unverified env rest
              (MongoStore.MarkNotificationAsEmailed m.id st).2
              (tr ++ [⟨m.id, um.email, Worker.staleSubject, m.message⟩])
              n u hmem' hndns.2
              (by rw [markEmailed_ids]; exact hndst)
              (by rw [getUser_markEmailed]; exact hu) hv
            refine ⟨ih.1, ?_⟩
            rw [ih.2, List.filter_append]
            simp [hmne]
          | false =>
            simp only [Bool.false_eq_true, if_neg, not_false_eq_true]
            have ih := processStale_unverified env rest st
              (tr ++ [⟨m.id, um.email, Worker.staleSubject, m.message⟩])
              n u hmem' hndns.2 hndst hu hv
            refine ⟨ih.1, ?_⟩
            rw [ih.2, List.filter_append]
            simp [hmne]

/-- Processing a stale batch containing `n`, whose owner exists and is
verified: the trace gains exactly one send for `n` (with the owner's email,
the fixed subject and `n`'s message); on send success `n` ends up emailed,
on failure its emailed flag is still clear. -/
theorem processStale_verified (env : Env) :
    ∀ (ns : List Notification) (st : MongoState) (tr : List Worker.SendCall)
      (n : Notification) (u : User),
      n ∈ ns →
      (ns.map (fun m => m.id)).Nodup →
      (st.notifications.map (fun m => m.id)).Nodup →
      MongoStore.GetUser n.userID st = .ok u →
      u.isVerified = true →
      allUnemailedAt st n.id →
      (Worker.processStale env ns st tr).2.filter
          (fun c => c.notifId == n.id) =
        tr.filter (fun c => c.notifId == n.id) ++
          [⟨n.id, u.email, Worker.staleSubject, n.message⟩] ∧
      (env.send u.email Worker.staleSubject n.message = true →
        allEmailedAt (Worker.processStale env ns st tr).1 n.id) ∧
      (env.send u.email Worker.staleSubject n.message = false →
        allUnemailedAt (Worker.processStale env ns st tr).1 n.id)
  | [], _, _, _, _, hmem, _, _, _, _, _ => absurd hmem (by simp)
  | m :: rest, st, tr, n, u, hmem, hndns, hndst, hu, hv, hun => by
    rw [List.map_cons, List.nodup_cons] at hndns
    simp only [Worker.processStale]
    rcases List.mem_cons.mp hmem with heq | hmem'
    · subst heq
      have havoid : ∀ m' ∈ rest, m'.id ≠ n.id := by
        intro m' hm' hid
        exact hndns.1 (hid ▸ List.mem_map_of_mem (fun x => x.id) hm')
      simp only [hu, hv, Bool.not_true, Bool.false_eq_true, if_neg,
        not_false_eq_true]
      cases hs : env.send u.email Worker.staleSubject n.message with
      | true =>
        simp only [if_pos]
        refine ⟨?_, fun _ => ?_, fun hcontra => by simp [hs] at hcontra⟩
        · rw [processStale_trace_avoid env n.id rest _ _ havoid,
            List.filter_append]
          simp
        · apply processStale_allEmailedAt
          intro m' hm' hid
          exact updateOne_emailed_all hndst m' hm' hid
      | false =>
        simp only [Bool.false_eq_true, if_neg, not_false_eq_true]
        refine ⟨?_, fun hcontra => by simp [hs] at hcontra, fun _ => ?_⟩
        · rw [processStale_trace_avoid env n.id rest _ _ havoid,
            List.filter_append]
          simp
        · exact processStale_allUnemailedAt env n.id rest st _ havoid hun
    · have hmne : (m.id == n.id) = false := by
        rw [beq_eq_false_iff_ne]
        intro hcontra
        exact hndns.1 (hcontra ▸ List.mem_map_of_mem (fun x => x.id) hmem')
      have hmne' : m.id ≠ n.id := by
        intro hcontra
        exact hndns.1 (hcontra ▸ List.mem_map_of_mem (fun x => x.id) hmem')
      cases hum : MongoStore.GetUser m.userID st with
      | error e =>
        exact processStale_verified env rest st tr n u hmem' hndns.2
          hndst hu hv hun
      | ok um =>
        cases hvm : um.isVerified with
        | false =>
          simp only [hvm, Bool.not_false, if_pos]
          refine processStale_verified env rest _ tr n u hmem' hndns.2
            ?_ ?_ hv ?_
          · rw [markEmailed_ids]; exact hndst
          · rw [getUser_markEmailed]; exact hu
          · exact markEmailed_allUnemailedAt n.id m.id st hmne' hun
        | true =>
          simp only [hvm, Bool.not_true, Bool.false_eq_true, if_neg,
            not_false_eq_true]
          cases hs : env.send um.email Worker.staleSubject m.message with
          | true =>
            simp only [if_pos]
            have ih := processStale_verified env rest
              (MongoStore.MarkNotificationAsEmailed m.id st).2
              (tr ++ [⟨m.id, um.email, Worker.staleSubject, m.message⟩])
              n u hmem' hndns.2
              (by rw [markEmailed_ids]; exact hndst)
              (by rw [getUser_markEmailed]; exact hu) hv
              (markEmailed_allUnemailedAt n.id m.id st hmne' hun)
            refine ⟨?_, ih.2.1, ih.2.2⟩
            rw [ih.1, List.filter_append]
            simp [hmne]
          | false =>
            simp only [Bool.false_eq_true, if_neg, not_false_eq_true]
            have ih := processStale_verified env rest st
              (tr ++ [⟨m.id, um.email, Worker.staleSubject, m.message⟩])
              n u hmem' hndns.2 hndst hu hv hun
            refine ⟨?_, ih.2.1, ih.2.2⟩
            rw [ih.1, List.filter_append]
            simp [hmne]

/-- A successful stale-unread query result is a sublist of the stored
notifications, each returned record unread and not yet emailed. -/
theorem getUnread_ok {pd : String → Option Int} {fmt : Int → String}
    {now : Int} {dur : String} {st : MongoState} {ns : List Notification}
    (hq : MongoStore.GetUnreadNotificationsOlderThan pd fmt now dur st =
      .ok ns) :
    ns.Sublist st.notifications ∧
      ∀ m ∈ ns, m.read = false ∧ m.emailed = false := by
  simp only [MongoStore.GetUnreadNotificationsOlderThan] at hq
  rcases hpd : pd dur with _ | d
  · rw [hpd] at hq; exact absurd hq (by simp)
  · rw [hpd] at hq
    have hl := Except.ok.inj hq
    rw [← hl]
    refine ⟨List.filter_sublist _, ?_⟩
    intro m hm
    have := (List.mem_filter.mp hm).2
    simp only [Bool.and_eq_true, Bool.not_eq_true'] at this
    exact ⟨this.1.1, this.1.2⟩

/-! ### Claim C5 -/

/-- C5: for every stale unread notification in the batch whose owner exists
and is unverified, one run of `CheckUnreadNotifications` leaves the
notification marked emailed and makes no email-send call for it. -/
theorem claim_C5 (env : Env) (st : MongoState) (n : Notification) (u : User)
    (ns : List Notification)
    (hnd : (st.notifications.map (fun m => m.id)).Nodup)
    (hq : MongoStore.GetUnreadNotificationsOlderThan env.pd env.fmt env.now
      "1h" st = .ok ns)
    (hmem : n ∈ ns)
    (hu : MongoStore.GetUser n.userID st = .ok u)
    (hv : u.isVerified = false) :
    allEmailedAt (Worker.CheckUnreadNotifications env st).1 n.id ∧
    ∀ c ∈ (Worker.CheckUnreadNotifications env st).2, c.notifId ≠ n.id := by
  have hndns : (ns.map (fun m => m.id)).Nodup :=
    ((getUnread_ok hq).1.map (fun m => m.id)).nodup hnd
  have hrun : Worker.CheckUnreadNotifications env st =
      Worker.processStale env ns st [] := by
    simp only [Worker.CheckUnreadNotifications, hq]
  have h := processStale_unverified env ns st [] n u hmem hndns hnd hu hv
  rw [hrun]
  refine ⟨h.1, ?_⟩
  intro c hc hcontra
  have hcf : c ∈ (Worker.processStale env ns st []).2.filter
      (fun c => c.notifId == n.id) :=
    List.mem_filter.mpr ⟨hc, by simp [hcontra]⟩
  rw [h.2] at hcf
  simp at hcf

/-- Fixture: an unverified user owning `n0`. -/
def u0 : User :=
  { id := "u1", name := "A", email := "a@example.com", password := "p"
    isVerified := false, verificationToken := "tok" }

/-- Fixture: a worker environment with hour/day duration parsing, a
degenerate formatter and an always-succeeding sender. -/
def envW : Env :=
  { pd := fun s => if s == "1h" then some 60
      else if s == "24h" then some 1440 else none
    parse := parse1, fmt := fmt0, now := 0, nowStr := "now"
    gen := fun k => "uuid-" ++ toString k
    send := fun _ _ _ => true }

/-- Fixture: a store with the unverified owner `u0` and its stale unread
notification `n0`. -/
def stU : MongoState := { emptyMongo with users := [u0], notifications := [n0] }

/-- Witness for C5 at a concrete input. -/
theorem claim_C5_witness :
    allEmailedAt (Worker.CheckUnreadNotifications envW stU).1 n0.id ∧
    ∀ c ∈ (Worker.CheckUnreadNotifications envW stU).2, c.notifId ≠ n0.id :=
  claim_C5 envW stU n0 u0 [n0] (by simp [stU, emptyMongo]) (by rfl)
    (by simp) (by rfl) rfl

/-! ### Claim C6 -/

/-- C6: for every stale unread notification in the batch whose owner exists
and is verified, one run of `CheckUnreadNotifications` makes exactly one
email-send call for it (to the owner's address, with the fixed subject and
the notification's message); on send success the notification ends up
emailed, on failure its emailed flag is left false so the next cycle
retries it. -/
theorem claim_C6 (env : Env) (st : MongoState) (n : Notification) (u : User)
    (ns : List Notification)
    (hnd : (st.notifications.map (fun m => m.id)).Nodup)
    (hq : MongoStore.GetUnreadNotificationsOlderThan env.pd env.fmt env.now
      "1h" st = .ok ns)
    (hmem : n ∈ ns)
    (hu : MongoStore.GetUser n.userID st = .ok u)
    (hv : u.isVerified = true) :
    (Worker.CheckUnreadNotifications env st).2.filter
        (fun c => c.notifId == n.id) =
      [⟨n.id, u.email, Worker.staleSubject, n.message⟩] ∧
    (env.send u.email Worker.staleSubject n.message = true →
      allEmailedAt (Worker.CheckUnreadNotifications env st).1 n.id) ∧
    (env.send u.email Worker.staleSubject n.message = false →
      allUnemailedAt (Worker.CheckUnreadNotifications env st).1 n.id) := by
  have hsub := (getUnread_ok hq).1
  have hndns : (ns.map (fun m => m.id)).Nodup :=
    (hsub.map (fun m => m.id)).nodup hnd
  have hun : allUnemailedAt st n.id := by
    intro m hm hid
    have hm_eq : m = n := eq_of_id_eq hnd hm (hsub.mem hmem) hid
    rw [hm_eq]
    exact ((getUnread_ok hq).2 n hmem).2
  have hrun : Worker.CheckUnreadNotifications env st =
      Worker.processStale env ns st [] := by
    simp only [Worker.CheckUnreadNotifications, hq]
  have h := processStale_verified env ns st [] n u hmem hndns hnd hu hv hun
  rw [hrun]
  refine ⟨?_, h.2.1, h.2.2⟩
  rw [h.1]
  simp

/-- Fixture: a verified user owning `n0`. -/
def uV : User := { u0 with isVerified := true }

/-- Fixture: a store with the verified owner `uV` and its stale unread
notification `n0`. -/
def stV : MongoState := { emptyMongo with users := [uV], notifications := [n0] }

/-- Witness for C6 at a concrete input (the sender succeeds, so the
notification ends up emailed after its single send). -/
theorem claim_C6_witness :
    (Worker.CheckUnreadNotifications envW stV).2.filter
        (fun c => c.notifId == n0.id) =
      [⟨n0.id, uV.email, Worker.staleSubject, n0.message⟩] ∧
    allEmailedAt (Worker.CheckUnreadNotifications envW stV).1 n0.id := by
  have h := claim_C6 envW stV n0 uV [n0] (by simp [stV, emptyMongo]) (by rfl)
    (by simp) (by rfl) rfl
  exact ⟨h.1, h.2.1 rfl⟩

/-! ### Claim C7 -/

/-- A stale item whose owner lookup fails is skipped: processing a batch
with such an item anywhere in the middle equals processing the batch
without it. -/
theorem processStale_skip (env : Env) :
    ∀ (ns1 ns2 : List Notification) (n : Notification) (st : MongoState)
      (tr : List Worker.SendCall) (e : StoreErr),
      MongoStore.GetUser n.userID st = .error e →
      Worker.processStale env (ns1 ++ n :: ns2) st tr =
        Worker.processStale env (ns1 ++ ns2) st tr
  | [], ns2, n, st, tr, e, h => by
    simp only [List.nil_append, Worker.processStale, h]
  | m :: ms, ns2, n, st, tr, e, h => by
    simp only [List.cons_append, Worker.processStale]
    cases hum : MongoStore.GetUser m.userID st with
    | error _ => exact processStale_skip env ms ns2 n st tr e h
    | ok um =>
      cases hvm : um.isVerified with
      | false =>
        simp only [hvm, Bool.not_false, if_pos]
        exact processStale_skip env ms ns2 n _ tr e
          (by rw [getUser_markEmailed]; exact h)
      | true =>
        simp only [hvm, Bool.not_true, Bool.false_eq_true, if_neg,
          not_false_eq_true]
        cases hs : env.send um.email Worker.staleSubject m.message with
        | true =>
          simp only [if_pos]
          exact processStale_skip env ms ns2 n _ _ e
            (by rw [getUser_markEmailed]; exact h)
        | false =>
          simp only [Bool.false_eq_true, if_neg, not_false_eq_true]
          exact processStale_skip env ms ns2 n st _ e h

/-- C7: within one cycle, a failing item (owner lookup NotFound) does not
stop the remaining items of the stale scan from being processed, and a
failing scan step (here a duration-parse failure making both due-work
queries error out) does not stop the following steps of the cycle. -/
theorem claim_C7 :
    (∀ (env : Env) (ns1 ns2 : List Notification) (n : Notification)
        (st : MongoState) (tr : List Worker.SendCall) (e : StoreErr),
      MongoStore.GetUser n.userID st = .error e →
      Worker.processStale env (ns1 ++ n :: ns2) st tr =
        Worker.processStale env (ns1 ++ ns2) st tr) ∧
    (∀ (env : Env) (st : MongoState) (k : Nat),
      env.pd "24h" = none →
      Worker.CheckUpcomingTasks env st k = (st, k) ∧
      Worker.CheckUpcomingEvents env st k = (st, k) ∧
      Worker.runCycle env st k =
        (((Worker.CheckUnreadNotifications env st).1, k),
          (Worker.CheckUnreadNotifications env st).2)) := by
  constructor
  · intro env ns1 ns2 n st tr e h
    exact processStale_skip env ns1 ns2 n st tr e h
  · intro env st k h
    have h1 : Worker.CheckUpcomingTasks env st k = (st, k) := by
      simp only [Worker.CheckUpcomingTasks, MongoStore.GetTasksDueIn, h]
    have h2 : Worker.CheckUpcomingEvents env st k = (st, k) := by
      simp only [Worker.CheckUpcomingEvents, MongoStore.GetEventsStartingIn, h]
    refine ⟨h1, h2, ?_⟩
    simp only [Worker.runCycle, h1, h2]

/-- Fixture: an environment whose duration parser always fails. -/
def envNoPd : Env := { envW with pd := fun _ => none }

/-- Witness for C7 at a concrete input: the item with a missing owner is
skipped (empty store), and with an unparseable duration the task scan is a
no-op while the cycle still runs the stale scan. -/
theorem claim_C7_witness :
    Worker.processStale envW ([] ++ n0 :: []) emptyMongo [] =
      Worker.processStale envW ([] ++ []) emptyMongo [] ∧
    Worker.CheckUpcomingTasks envNoPd emptyMongo 0 = (emptyMongo, 0) ∧
    Worker.runCycle envNoPd emptyMongo 0 =
      (((Worker.CheckUnreadNotifications envNoPd emptyMongo).1, 0),
        (Worker.CheckUnreadNotifications envNoPd emptyMongo).2) := by
  have h2 := claim_C7.2 envNoPd emptyMongo 0 rfl
  exact ⟨claim_C7.1 envW [] [] n0 emptyMongo [] .notFound rfl, h2.1, h2.2.2⟩

/-! ### Claim C3 -/

/-- Number of notifications stored for a (reference, kind) dedup key. -/
def countRef (r ty : String) (st : MongoState) : Nat :=
  (st.notifications.filter
    (fun n => n.referenceID == r && n.type == ty)).length

theorem createNotification_ref (g ns : String) (n : Notification)
    (st : MongoState) :
    (MongoStore.CreateNotification g ns n st).1.referenceID =
      n.referenceID := by
  simp only [MongoStore.CreateNotification]
  split <;> split <;> rfl

theorem createNotification_type (g ns : String) (n : Notification)
    (st : MongoState) :
    (MongoStore.CreateNotification g ns n st).1.type = n.type := by
  simp only [MongoStore.CreateNotification]
  split <;> split <;> rfl

theorem createNotification_notifications (g ns : String) (n : Notification)
    (st : MongoState) :
    (MongoStore.CreateNotification g ns n st).2.notifications =
      st.notifications ++ [(MongoStore.CreateNotification g ns n st).1] := rfl

theorem countRef_create (r ty g ns : String) (n : Notification)
    (st : MongoState) :
    countRef r ty (MongoStore.CreateNotification g ns n st).2 =
      countRef r ty st +
        (if (n.referenceID == r && n.type == ty) = true then 1 else 0) := by
  unfold countRef
  rw [createNotification_notifications, List.filter_append, List.length_append]
  congr 1
  have hp : ((MongoStore.CreateNotification g ns n st).1.referenceID == r &&
      (MongoStore.CreateNotification g ns n st).1.type == ty) =
      (n.referenceID == r && n.type == ty) := by
    rw [createNotification_ref, createNotification_type]
  by_cases h : (n.referenceID == r && n.type == ty) = true
  · rw [List.filter_cons_of_pos (by rw [hp]; exact h)]
    simp [h]
  · rw [List.filter_cons_of_neg (by rw [hp]; exact h)]
    simp [h]

theorem countRef_zero_of_find_none {r ty : String} {st : MongoState}
    (h : st.notifications.find?
      (fun n => n.referenceID == r && n.type == ty) = none) :
    countRef r ty st = 0 := by
  unfold countRef
  rw [List.length_eq_zero, List.filter_eq_nil_iff]
  exact fun a ha => List.find?_eq_none.mp h a ha

theorem countRef_pos_of_find_some {r ty : String} {st : MongoState}
    {x : Notification}
    (h : st.notifications.find?
      (fun n => n.referenceID == r && n.type == ty) = some x) :
    1 ≤ countRef r ty st := by
  unfold countRef
  have hmem : x ∈ st.notifications := List.mem_of_find?_eq_some h
  have hx := List.find?_some h
  have : x ∈ st.notifications.filter
      (fun n => n.referenceID == r && n.type == ty) :=
    List.mem_filter.mpr ⟨hmem, hx⟩
  exact List.length_pos.mpr (List.ne_nil_of_mem this)

theorem processDueTasks_tasks (env : Env) :
    ∀ (ts : List Task) (st : MongoState) (k : Nat),
      (Worker.processDueTasks env ts st k).1.tasks = st.tasks
  | [], _, _ => rfl
  | t :: ts, st, k => by
    simp only [Worker.processDueTasks]
    cases hf : MongoStore.GetNotificationByReferenceID t.id "TASK_DUE" st with
    | ok _ => exact processDueTasks_tasks env ts st k
    | error _ => exact processDueTasks_tasks env ts _ _

theorem processDueEvents_events (env : Env) :
    ∀ (es : List Event) (st : MongoState) (k : Nat),
      (Worker.processDueEvents env es st k).1.events = st.events
  | [], _, _ => rfl
  | e :: es, st, k => by
    simp only [Worker.processDueEvents]
    cases hf : MongoStore.GetNotificationByReferenceID e.id "EVENT_START" st with
    | ok _ => exact processDueEvents_events env es st k
    | error _ => exact processDueEvents_events env es _ _

theorem processDueTasks_count_pos (env : Env) (r : String) :
    ∀ (ts : List Task) (st : MongoState) (k : Nat),
      1 ≤ countRef r "TASK_DUE" st →
      countRef r "TASK_DUE" (Worker.processDueTasks env ts st k).1 =
        countRef r "TASK_DUE" st
  | [], _, _, _ => rfl
  | t :: ts, st, k, hpos => by
    simp only [Worker.processDueTasks, MongoStore.GetNotificationByReferenceID]
    cases hf : st.notifications.find?
        (fun n => n.referenceID == t.id && n.type == "TASK_DUE") with
    | some _ => exact processDueTasks_count_pos env r ts st k hpos
    | none =>
      have hzero := countRef_zero_of_find_none hf
      have hne : (t.id == r) = false := by
        rw [beq_eq_false_iff_ne]
        intro hcontra
        rw [hcontra] at hzero
        omega
      have hcount := countRef_create r "TASK_DUE" (env.gen k) env.nowStr
        (Worker.taskNotification t) st
      rw [show (Worker.taskNotification t).referenceID = t.id from rfl,
        show (Worker.taskNotification t).type = "TASK_DUE" from rfl,
        hne] at hcount
      simp only [Bool.false_and, if_neg, Bool.false_eq_true,
        not_false_eq_true, Nat.add_zero] at hcount
      rw [processDueTasks_count_pos env r ts _ (k + 1) (by rw [hcount]; exact hpos),
        hcount]

theorem processDueTasks_count_reach (env : Env) (r : String) :
    ∀ (ts : List Task) (st : MongoState) (k : Nat),
      countRef r "TASK_DUE" st = 0 → (∃ t ∈ ts, t.id = r) →
      countRef r "TASK_DUE" (Worker.processDueTasks env ts st k).1 = 1
  | [], _, _, _, hex => absurd hex (by simp)
  | t :: ts, st, k, hzero, hex => by
    simp only [Worker.processDueTasks, MongoStore.GetNotificationByReferenceID]
    cases hf : st.notifications.find?
        (fun n => n.referenceID == t.id && n.type == "TASK_DUE") with
    | some x =>
      have hpos := countRef_pos_of_find_some hf
      have hne : t.id ≠ r := by
        intro hcontra
        rw [hcontra] at hpos
        omega
      rcases hex with ⟨w, hw, hwid⟩
      rcases List.mem_cons.mp hw with rfl | hw'
      · exact absurd hwid hne
      · exact processDueTasks_count_reach env r ts st k hzero ⟨w, hw', hwid⟩
    | none =>
      have hcount := countRef_create r "TASK_DUE" (env.gen k) env.nowStr
        (Worker.taskNotification t) st
      rw [show (Worker.taskNotification t).referenceID = t.id from rfl,
        show (Worker.taskNotification t).type = "TASK_DUE" from rfl] at hcount
      by_cases hid : t.id = r
      · rw [show (t.id == r && ("TASK_DUE" : String) == "TASK_DUE") = true
            by simp [hid]] at hcount
        simp only [if_pos] at hcount
        rw [hzero] at hcount
        rw [processDueTasks_count_pos env r ts _ (k + 1) (by omega), hcount]
      · rw [show (t.id == r && ("TASK_DUE" : String) == "TASK_DUE") = false
            by simp [hid]] at hcount
        simp only [Bool.false_eq_true, if_neg, not_false_eq_true,
          Nat.add_zero] at hcount
        rcases hex with ⟨w, hw, hwid⟩
        rcases List.mem_cons.mp hw with rfl | hw'
        · exact absurd hwid hid
        · exact processDueTasks_count_reach env r ts _ (k + 1)
            (by rw [hcount]; exact hzero) ⟨w, hw', hwid⟩

theorem processDueEvents_count_pos (env : Env) (r : String) :
    ∀ (es : List Event) (st : MongoState) (k : Nat),
      1 ≤ countRef r "EVENT_START" st →
      countRef r "EVENT_START" (Worker.processDueEvents env es st k).1 =
        countRef r "EVENT_START" st
  | [], _, _, _ => rfl
  | e :: es, st, k, hpos => by
    simp only [Worker.processDueEvents, MongoStore.GetNotificationByReferenceID]
    cases hf : st.notifications.find?
        (fun n => n.referenceID == e.id && n.type == "EVENT_START") with
    | some _ => exact processDueEvents_count_pos env r es st k hpos
    | none =>
      have hzero := countRef_zero_of_find_none hf
      have hne : (e.id == r) = false := by
        rw [beq_eq_false_iff_ne]
        intro hcontra
        rw [hcontra] at hzero
        omega
      have hcount := countRef_create r "EVENT_START" (env.gen k) env.nowStr
        (Worker.eventNotification e) st
      rw [show (Worker.eventNotification e).referenceID = e.id from rfl,
        show (Worker.eventNotification e).type = "EVENT_START" from rfl,
        hne] at hcount
      simp only [Bool.false_and, if_neg, Bool.false_eq_true,
        not_false_eq_true, Nat.add_zero] at hcount
      rw [processDueEvents_count_pos env r es _ (k + 1)
          (by rw [hcount]; exact hpos), hcount]

theorem processDueEvents_count_reach (env : Env) (r : String) :
    ∀ (es : List Event) (st : MongoState) (k : Nat),
      countRef r "EVENT_START" st = 0 → (∃ e ∈ es, e.id = r) →
      countRef r "EVENT_START" (Worker.processDueEvents env es st k).1 = 1
  | [], _, _, _, hex => absurd hex (by simp)
  | e :: es, st, k, hzero, hex => by
    simp only [Worker.processDueEvents, MongoStore.GetNotificationByReferenceID]
    cases hf : st.notifications.find?
        (fun n => n.referenceID == e.id && n.type == "EVENT_START") with
    | some x =>
      have hpos := countRef_pos_of_find_some hf
      have hne : e.id ≠ r := by
        intro hcontra
        rw [hcontra] at hpos
        omega
      rcases hex with ⟨w, hw, hwid⟩
      rcases List.mem_cons.mp hw with rfl | hw'
      · exact absurd hwid hne
      · exact processDueEvents_count_reach env r es st k hzero ⟨w, hw', hwid⟩
    | none =>
      have hcount := countRef_create r "EVENT_START" (env.gen k) env.nowStr
        (Worker.eventNotification e) st
      rw [show (Worker.eventNotification e).referenceID = e.id from rfl,
        show (Worker.eventNotification e).type = "EVENT_START" from rfl]
        at hcount
      by_cases hid : e.id = r
      · rw [show (e.id == r && ("EVENT_START" : String) == "EVENT_START") = true
            by simp [hid]] at hcount
        simp only [if_pos] at hcount
        rw [hzero] at hcount
        rw [processDueEvents_count_pos env r es _ (k + 1) (by omega), hcount]
      · rw [show (e.id == r && ("EVENT_START" : String) == "EVENT_START") = false
            by simp [hid]] at hcount
        simp only [Bool.false_eq_true, if_neg, not_false_eq_true,
          Nat.add_zero] at hcount
        rcases hex with ⟨w, hw, hwid⟩
        rcases List.mem_cons.mp hw with rfl | hw'
        · exact absurd hwid hid
        · exact processDueEvents_count_reach env r es _ (k + 1)
            (by rw [hcount]; exact hzero) ⟨w, hw', hwid⟩

theorem checkTasks_count_pos (env : Env) (r : String) (st : MongoState)
    (k : Nat) (h : 1 ≤ countRef r "TASK_DUE" st) :
    countRef r "TASK_DUE" (Worker.CheckUpcomingTasks env st k).1 =
      countRef r "TASK_DUE" st := by
  simp only [Worker.CheckUpcomingTasks]
  cases hq : MongoStore.GetTasksDueIn env.pd env.parse env.now "24h" st with
  | error _ => rfl
  | ok ts => exact processDueTasks_count_pos env r ts st k h

theorem checkEvents_count_pos (env : Env) (r : String) (st : MongoState)
    (k : Nat) (h : 1 ≤ countRef r "EVENT_START" st) :
    countRef r "EVENT_START" (Worker.CheckUpcomingEvents env st k).1 =
      countRef r "EVENT_START" st := by
  simp only [Worker.CheckUpcomingEvents]
  cases hq : MongoStore.GetEventsStartingIn env.pd env.parse env.now "24h" st with
  | error _ => rfl
  | ok es => exact processDueEvents_count_pos env r es st k h

theorem runTasksIter_count_one (env : Env) (r : String) :
    ∀ (k : Nat) (p : MongoState × Nat),
      countRef r "TASK_DUE" p.1 = 1 →
      countRef r "TASK_DUE" (Worker.runTasksIter env k p).1 = 1
  | 0, _, h => h
  | k + 1, p, h => by
    simp only [Worker.runTasksIter]
    exact runTasksIter_count_one env r k _
      (by rw [checkTasks_count_pos env r p.1 p.2 (by omega)]; exact h)

theorem runEventsIter_count_one (env : Env) (r : String) :
    ∀ (k : Nat) (p : MongoState × Nat),
      countRef r "EVENT_START" p.1 = 1 →
      countRef r "EVENT_START" (Worker.runEventsIter env k p).1 = 1
  | 0, _, h => h
  | k + 1, p, h => by
    simp only [Worker.runEventsIter]
    exact runEventsIter_count_one env r k _
      (by rw [checkEvents_count_pos env r p.1 p.2 (by omega)]; exact h)

/-- C3: for every work item due within the scan window and not yet alerted,
running the task scan (resp. event scan) once or more — in particular two
or more times in a row — leaves the store with exactly one notification for
the dedup key (W.ID, TASK_DUE) (resp. (W.ID, EVENT_START)). -/
theorem claim_C3 (env : Env) :
    (∀ (st : MongoState) (c : Nat) (W : Task) (l : List Task),
      MongoStore.GetTasksDueIn env.pd env.parse env.now "24h" st = .ok l →
      W ∈ l → countRef W.id "TASK_DUE" st = 0 →
      ∀ k, 1 ≤ k →
        countRef W.id "TASK_DUE" (Worker.runTasksIter env k (st, c)).1 = 1) ∧
    (∀ (st : MongoState) (c : Nat) (W : Event) (l : List Event),
      MongoStore.GetEventsStartingIn env.pd env.parse env.now "24h" st = .ok l →
      W ∈ l → countRef W.id "EVENT_START" st = 0 →
      ∀ k, 1 ≤ k →
        countRef W.id "EVENT_START"
          (Worker.runEventsIter env k (st, c)).1 = 1) := by
  constructor
  · intro st c W l hq hW h0 k hk
    cases k with
    | zero => omega
    | succ j =>
      simp only [Worker.runTasksIter]
      apply runTasksIter_count_one
      have : Worker.CheckUpcomingTasks env st c =
          Worker.processDueTasks env l st c := by
        simp only [Worker.CheckUpcomingTasks, hq]
      rw [this]
      exact processDueTasks_count_reach env W.id l st c h0 ⟨W, hW, rfl⟩
  · intro st c W l hq hW h0 k hk
    cases k with
    | zero => omega
    | succ j =>
      simp only [Worker.runEventsIter]
      apply runEventsIter_count_one
      have : Worker.CheckUpcomingEvents env st c =
          Worker.processDueEvents env l st c := by
        simp only [Worker.CheckUpcomingEvents, hq]
      rw [this]
      exact processDueEvents_count_reach env W.id l st c h0 ⟨W, hW, rfl⟩

/-- Witness for C3 at a concrete input: two scans over a store with one due
task and one upcoming event leave exactly one notification per dedup key. -/
theorem claim_C3_witness :
    countRef t0.id "TASK_DUE" (Worker.runTasksIter envW 2 (st2, 0)).1 = 1 ∧
    countRef e0.id "EVENT_START" (Worker.runEventsIter envW 2 (st2, 0)).1 = 1 :=
  ⟨(claim_C3 envW).1 st2 0 t0 [t0] (by rfl) (by simp) (by rfl) 2 (by omega),
   (claim_C3 envW).2 st2 0 e0 [e0] (by rfl) (by simp) (by rfl) 2 (by omega)⟩

/-! ### Claim C2: amended backend parity for the entity CRUD -/

/-- Pair each record with its id key (the association-list image of a Go
map whose values carry their own key). -/
def keyed {α : Type _} (key : α → String) (l : List α) : List (String × α) :=
  l.map (fun x => (key x, x))

/-- An entity CRUD operation of the persistence contract, over the four
entity kinds both backends implement. -/
inductive GwOp where
  | createTask (genId : String) (t : Task)
  | getTask (id : String)
  | updateTask (id : String) (t : Task)
  | deleteTask (id : String)
  | listTasks (userID : String)
  | createCourse (genId : String) (c : Course)
  | getCourse (id : String)
  | listCourses (userID : String)
  | createEvent (genId : String) (e : Event)
  | listEvents (userID : String)
  | createUser (genId : String) (u : User)
  | getUser (id : String)
  | updateUser (id : String) (u : User)
  | updateUserPassword (id : String) (pw : String)
  | markUserVerified (id : String)
  deriving Repr

/-- The observable result of one entity CRUD operation. -/
inductive GwOut where
  | createdTask (t : Task)
  | fetchedTask (r : Except StoreErr Task)
  | updatedTask (r : Except StoreErr Task)
  | deletedTask (r : Except StoreErr Unit)
  | listedTasks (l : List Task)
  | createdCourse (c : Course)
  | fetchedCourse (r : Except StoreErr Course)
  | listedCourses (l : List Course)
  | createdEvent (e : Event)
  | listedEvents (l : List Event)
  | createdUser (u : User)
  | fetchedUser (r : Except StoreErr User)
  | updatedUser (r : Except StoreErr User)
  | updatedPassword (r : Except StoreErr User)
  | verifiedUser (r : Except StoreErr Unit)
  deriving Repr

/-- Results compared as the claim compares them: scalar results exactly,
list results modulo record ordering (the in-process backend iterates Go
maps whose order is unspecified). -/
def outEquiv : GwOut → GwOut → Prop
  | .listedTasks l₁, .listedTasks l₂ => l₁.Perm l₂
  | .listedCourses l₁, .listedCourses l₂ => l₁.Perm l₂
  | .listedEvents l₁, .listedEvents l₂ => l₁.Perm l₂
  | a, b => a = b

def mongoGwStep : GwOp → MongoState → GwOut × MongoState
  | .createTask g t, st =>
    let r := MongoStore.CreateTask g t st
    (.createdTask r.1, r.2)
  | .getTask id, st => (.fetchedTask (MongoStore.GetTask id st), st)
  | .updateTask id t, st =>
    let r := MongoStore.UpdateTask id t st
    (.updatedTask r.1, r.2)
  | .deleteTask id, st =>
    let r := MongoStore.DeleteTask id st
    (.deletedTask r.1, r.2)
  | .listTasks uid, st => (.listedTasks (MongoStore.GetTasks uid st), st)
  | .createCourse g c, st =>
    let r := MongoStore.CreateCourse g c st
    (.createdCourse r.1, r.2)
  | .getCourse id, st => (.fetchedCourse (MongoStore.GetCourse id st), st)
  | .listCourses uid, st => (.listedCourses (MongoStore.GetCourses uid st), st)
  | .createEvent g e, st =>
    let r := MongoStore.CreateEvent g e st
    (.createdEvent r.1, r.2)
  | .listEvents uid, st => (.listedEvents (MongoStore.GetEvents uid st), st)
  | .createUser g u, st =>
    let r := MongoStore.CreateUser g u st
    (.createdUser r.1, r.2)
  | .getUser id, st => (.fetchedUser (MongoStore.GetUser id st), st)
  | .updateUser id u, st =>
    let r := MongoStore.UpdateUser id u st
    (.updatedUser r.1, r.2)
  | .updateUserPassword id pw, st =>
    let r := MongoStore.UpdateUserPassword id pw st
    (.updatedPassword r.1, r.2)
  | .markUserVerified id, st =>
    let r := MongoStore.MarkUserVerified id st
    (.verifiedUser r.1, r.2)

def memGwStep : GwOp → InMemoryState → GwOut × InMemoryState
  | .createTask _ t, st =>
    let r := InMemoryStore.CreateTask t st
    (.createdTask r.1, r.2)
  | .getTask id, st => (.fetchedTask (InMemoryStore.GetTask id st), st)
  | .updateTask id t, st =>
    let r := InMemoryStore.UpdateTask id t st
    (.updatedTask r.1, r.2)
  | .deleteTask id, st =>
    let r := InMemoryStore.DeleteTask id st
    (.deletedTask r.1, r.2)
  | .listTasks uid, st => (.listedTasks (InMemoryStore.GetTasks uid st), st)
  | .createCourse _ c, st =>
    let r := InMemoryStore.CreateCourse c st
    (.createdCourse r.1, r.2)
  | .getCourse id, st => (.fetchedCourse (InMemoryStore.GetCourse id st), st)
  | .listCourses uid, st =>
    (.listedCourses (InMemoryStore.GetCourses uid st), st)
  | .createEvent _ e, st =>
    let r := InMemoryStore.CreateEvent e st
    (.createdEvent r.1, r.2)
  | .listEvents uid, st => (.listedEvents (InMemoryStore.GetEvents uid st), st)
  | .createUser _ u, st =>
    let r := InMemoryStore.CreateUser u st
    (.createdUser r.1, r.2)
  | .getUser id, st => (.fetchedUser (InMemoryStore.GetUser id st), st)
  | .updateUser id u, st =>
    let r := InMemoryStore.UpdateUser id u st
    (.updatedUser r.1, r.2)
  | .updateUserPassword id pw, st =>
    let r := InMemoryStore.UpdateUserPassword id pw st
    (.updatedPassword r.1, r.2)
  | .markUserVerified id, st =>
    let r := InMemoryStore.MarkUserVerified id st
    (.verifiedUser r.1, r.2)

def mongoGwRun : List GwOp → MongoState → List GwOut × MongoState
  | [], st => ([], st)
  | op :: ops, st =>
    let r := mongoGwStep op st
    let rest := mongoGwRun ops r.2
    (r.1 :: rest.1, rest.2)

def memGwRun : List GwOp → InMemoryState → List GwOut × InMemoryState
  | [], st => ([], st)
  | op :: ops, st =>
    let r := memGwStep op st
    let rest := memGwRun ops r.2
    (r.1 :: rest.1, rest.2)

/-- The operation side conditions, each forced by a conjunct of
`claim_C2_cex`: creates use a nonempty id not already present in the kind's
collection (conjuncts 3 and 4), a user update sets at least one field
(conjunct 5), and a password update is nonempty (conjunct 6). -/
def gwOpOkB : GwOp → MongoState → Bool
  | .createTask _ t, st =>
    !(t.id == "") && st.tasks.all (fun x => !(x.id == t.id))
  | .createCourse _ c, st =>
    !(c.id == "") && st.courses.all (fun x => !(x.id == c.id))
  | .createEvent _ e, st =>
    !(e.id == "") && st.events.all (fun x => !(x.id == e.id))
  | .createUser _ u, st =>
    !(u.id == "") && st.users.all (fun x => !(x.id == u.id))
  | .updateUser _ u, _ =>
    !(u.name == "" && u.email == "" && !u.isVerified &&
      u.verificationToken == "")
  | .updateUserPassword _ pw, _ => !(pw == "")
  | _, _ => true

def gwOpsOkB : List GwOp → MongoState → Bool
  | [], _ => true
  | op :: ops, st => gwOpOkB op st && gwOpsOkB ops (mongoGwStep op st).2

/-- The simulation invariant: each in-process map is the keyed image of the
corresponding document-store collection. -/
def gwRel (st : MongoState) (ist : InMemoryState) : Prop :=
  ist.tasks = keyed (fun t => t.id) st.tasks ∧
  ist.courses = keyed (fun c => c.id) st.courses ∧
  ist.events = keyed (fun e => e.id) st.events ∧
  ist.users = keyed (fun u => u.id) st.users

theorem keyed_snd {α : Type _} (key : α → String) :
    ∀ l : List α, (keyed key l).map (fun kv => kv.2) = l
  | [] => rfl
  | x :: xs => by
    simp only [keyed, List.map_cons]
    exact congrArg (x :: ·) (keyed_snd key xs)

theorem mapGet_keyed {α : Type _} (key : α → String) (id : String)
    (l : List α) :
    mapGet? id (keyed key l) = l.find? (fun x => key x == id) := by
  unfold mapGet? keyed
  rw [List.find?_map, Option.map_map]
  show Option.map (fun x : α => x) (l.find? (fun x => key x == id)) =
    l.find? (fun x => key x == id)
  cases l.find? (fun x => key x == id) <;> rfl

theorem mapSet_append {α : Type _} (k : String) (v : α) :
    ∀ (m : List (String × α)), (∀ kv ∈ m, kv.1 ≠ k) →
      mapSet k v m = m ++ [(k, v)]
  | [], _ => rfl
  | (k', v') :: rest, h => by
    have hk : (k' == k) = false := by
      rw [beq_eq_false_iff_ne]
      exact h (k', v') (List.mem_cons_self _ _)
    simp only [mapSet, hk, Bool.false_eq_true, if_neg, not_false_eq_true,
      List.cons_append, List.cons.injEq, true_and]
    exact mapSet_append k v rest
      (fun kv hkv => h kv (List.mem_cons_of_mem _ hkv))

theorem mapSet_keyed_fresh {α : Type _} (key : α → String) (v : α) :
    ∀ (l : List α), (∀ x ∈ l, key x ≠ key v) →
      mapSet (key v) v (keyed key l) = keyed key (l ++ [v]) := by
  intro l h
  unfold keyed
  rw [mapSet_append (key v) v _ (by
    intro kv hkv
    rcases List.mem_map.mp hkv with ⟨x, hx, rfl⟩
    exact h x hx), List.map_append]
  rfl

theorem mapSet_keyed_found {α : Type _} (key : α → String) (id : String)
    (f : α → α) (hpk : ∀ x, key x = id → key (f x) = id) :
    ∀ (l : List α) (y : α), l.find? (fun x => key x == id) = some y →
      mapSet id (f y) (keyed key l) =
        keyed key (updateOne (fun x => key x == id) f l).1
  | [], _, h => by simp at h
  | z :: zs, y, h => by
    by_cases hz : (key z == id) = true
    · rw [List.find?_cons_of_pos (p := fun x => key x == id) _ hz] at h
      have hy : y = z := (Option.some.inj h).symm
      subst hy
      have hkz : key y = id := by simpa using hz
      simp only [keyed, List.map_cons, mapSet, hz, if_pos, updateOne]
      rw [hkz, hpk y hkz]
    · rw [List.find?_cons_of_neg (p := fun x => key x == id) _
        (by simpa using hz)] at h
      simp only [keyed, List.map_cons, mapSet, hz, Bool.false_eq_true,
        if_neg, not_false_eq_true, updateOne, List.cons.injEq, true_and]
      exact mapSet_keyed_found key id f hpk zs y h

theorem mapDel_keyed {α : Type _} (key : α → String) (id : String) :
    ∀ (l : List α),
      mapDel id (keyed key l) = keyed key (deleteOne (fun x => key x == id) l).1
  | [] => rfl
  | z :: zs => by
    by_cases hz : (key z == id) = true
    · simp only [keyed, List.map_cons, mapDel, hz, if_pos, deleteOne]
    · simp only [keyed, List.map_cons, mapDel, hz, Bool.false_eq_true,
        if_neg, not_false_eq_true, deleteOne, List.cons.injEq, true_and]
      exact mapDel_keyed key id zs

theorem updateOne_snd_zero {p : α → Bool} {f : α → α} :
    ∀ {l : List α}, l.find? p = none → updateOne p f l = (l, 0) :=
  fun h => updateOne_of_no_match (fun x hx => by
    have := List.find?_eq_none.mp h x hx
    simpa using this)

theorem updateOne_snd_pos {p : α → Bool} {f : α → α} :
    ∀ {l : List α} {x : α}, l.find? p = some x → (updateOne p f l).2 = 1 := by
  intro l
  induction l with
  | nil => intro x h; simp at h
  | cons y ys ih =>
    intro x h
    by_cases hy : p y = true
    · simp [updateOne, hy]
    · rw [List.find?_cons_of_neg _ (by simpa using hy)] at h
      simp only [updateOne, hy, Bool.false_eq_true, if_neg, not_false_eq_true]
      exact ih h

theorem find?_updateOne {p : α → Bool} {f : α → α}
    (hp : ∀ x, p (f x) = p x) :
    ∀ {l : List α} {x : α}, l.find? p = some x →
      (updateOne p f l).1.find? p = some (f x) := by
  intro l
  induction l with
  | nil => intro x h; simp at h
  | cons y ys ih =>
    intro x h
    by_cases hy : p y = true
    · rw [List.find?_cons_of_pos _ hy] at h
      have hx : x = y := (Option.some.inj h).symm
      subst hx
      simp only [updateOne, hy, if_pos]
      rw [List.find?_cons_of_pos _ (by rw [hp]; exact hy)]
    · rw [List.find?_cons_of_neg _ (by simpa using hy)] at h
      simp only [updateOne, hy, Bool.false_eq_true, if_neg, not_false_eq_true]
      rw [List.find?_cons_of_neg _ (by simpa using hy)]
      exact ih h

theorem deleteOne_of_no_match {p : α → Bool} :
    ∀ {l : List α}, l.find? p = none → deleteOne p l = (l, 0)
  | [], _ => rfl
  | x :: xs, h => by
    have hx : p x = false := by
      have := List.find?_eq_none.mp h x (List.mem_cons_self x xs)
      simpa using this
    have hrest : xs.find? p = none := by
      rw [List.find?_eq_none]
      intro y hy
      exact List.find?_eq_none.mp h y (List.mem_cons_of_mem x hy)
    simp [deleteOne, hx, deleteOne_of_no_match hrest]

theorem deleteOne_snd_pos {p : α → Bool} :
    ∀ {l : List α} {x : α}, l.find? p = some x → (deleteOne p l).2 = 1 := by
  intro l
  induction l with
  | nil => intro x h; simp at h
  | cons y ys ih =>
    intro x h
    by_cases hy : p y = true
    · simp [deleteOne, hy]
    · rw [List.find?_cons_of_neg _ (by simpa using hy)] at h
      simp only [deleteOne, hy, Bool.false_eq_true, if_neg, not_false_eq_true]
      exact ih h

theorem mergeUserFields_id (u x : User) :
    (mergeUserFields u x).id = x.id := by
  simp only [mergeUserFields]
  split <;> split <;> split <;> split <;> rfl

/-- One-step simulation: under the keyed invariant and the side condition,
both backends produce the exact same output value in this model (the model
fixes an arbitrary map order, so list outputs coincide on the nose here;
`claim_C2` only exports the order-insensitive consequence) and the
invariant is re-established. -/
theorem gwStep_sim (op : GwOp) (st : MongoState) (ist : InMemoryState)
    (hrel : gwRel st ist) (hok : gwOpOkB op st = true) :
    (memGwStep op ist).1 = (mongoGwStep op st).1 ∧
    gwRel (mongoGwStep op st).2 (memGwStep op ist).2 := by
  obtain ⟨h1, h2, h3, h4⟩ := hrel
  cases op with
  | createTask g t =>
    simp only [gwOpOkB, Bool.and_eq_true, Bool.not_eq_true'] at hok
    have hne : (t.id == "") = false := hok.1
    have hfresh : ∀ x ∈ st.tasks, x.id ≠ t.id := by
      intro x hx
      have := List.all_eq_true.mp hok.2 x hx
      simpa using this
    refine ⟨by simp [memGwStep, mongoGwStep, InMemoryStore.CreateTask,
      MongoStore.CreateTask, hne], ?_, h2, h3, h4⟩
    show mapSet t.id t ist.tasks = _
    rw [h1, mapSet_keyed_fresh (fun x : Task => x.id) t _ hfresh]
    simp [mongoGwStep, MongoStore.CreateTask, hne]
  | getTask id =>
    refine ⟨?_, h1, h2, h3, h4⟩
    simp only [memGwStep, mongoGwStep, InMemoryStore.GetTask,
      MongoStore.GetTask]
    rw [h1, mapGet_keyed]
  | updateTask id t =>
    simp only [memGwStep, mongoGwStep, InMemoryStore.UpdateTask,
      MongoStore.UpdateTask]
    rw [h1, mapGet_keyed]
    cases hf : st.tasks.find? (fun x => x.id == id) with
    | none =>
      have hup := updateOne_snd_zero
        (f := fun _ : Task => { t with id := id }) hf
      simp only [hup]
      exact ⟨rfl, h1, h2, h3, h4⟩
    | some x =>
      have hup := updateOne_snd_pos
        (f := fun _ : Task => { t with id := id }) hf
      simp only [hup]
      refine ⟨rfl, ?_, h2, h3, h4⟩
      show mapSet id { t with id := id }
          (keyed (fun x : Task => x.id) st.tasks) = _
      rw [mapSet_keyed_found (fun x : Task => x.id) id
        (fun _ => { t with id := id }) (fun _ _ => rfl) st.tasks x hf]
      rfl
  | deleteTask id =>
    simp only [memGwStep, mongoGwStep, InMemoryStore.DeleteTask,
      MongoStore.DeleteTask]
    rw [h1, mapGet_keyed]
    cases hf : st.tasks.find? (fun x => x.id == id) with
    | none =>
      have hdel := deleteOne_of_no_match hf
      simp only [hdel]
      exact ⟨rfl, h1, h2, h3, h4⟩
    | some x =>
      have hdel := deleteOne_snd_pos hf
      simp only [hdel]
      refine ⟨rfl, ?_, h2, h3, h4⟩
      show mapDel id (keyed (fun x : Task => x.id) st.tasks) = _
      rw [mapDel_keyed]
      rfl
  | listTasks uid =>
    refine ⟨?_, h1, h2, h3, h4⟩
    simp only [memGwStep, mongoGwStep, InMemoryStore.GetTasks,
      MongoStore.GetTasks]
    rw [h1, keyed_snd]
  | createCourse g c =>
    simp only [gwOpOkB, Bool.and_eq_true, Bool.not_eq_true'] at hok
    have hne : (c.id == "") = false := hok.1
    have hfresh : ∀ x ∈ st.courses, x.id ≠ c.id := by
      intro x hx
      have := List.all_eq_true.mp hok.2 x hx
      simpa using this
    refine ⟨by simp [memGwStep, mongoGwStep, InMemoryStore.CreateCourse,
      MongoStore.CreateCourse, hne], h1, ?_, h3, h4⟩
    show mapSet c.id c ist.courses = _
    rw [h2, mapSet_keyed_fresh (fun x : Course => x.id) c _ hfresh]
    simp [mongoGwStep, MongoStore.CreateCourse, hne]
  | getCourse id =>
    refine ⟨?_, h1, h2, h3, h4⟩
    simp only [memGwStep, mongoGwStep, InMemoryStore.GetCourse,
      MongoStore.GetCourse]
    rw [h2, mapGet_keyed]
  | listCourses uid =>
    refine ⟨?_, h1, h2, h3, h4⟩
    simp only [memGwStep, mongoGwStep, InMemoryStore.GetCourses,
      MongoStore.GetCourses]
    rw [h1, h2, keyed_snd, keyed_snd]
  | createEvent g e =>
    simp only [gwOpOkB, Bool.and_eq_true, Bool.not_eq_true'] at hok
    have hne : (e.id == "") = false := hok.1
    have hfresh : ∀ x ∈ st.events, x.id ≠ e.id := by
      intro x hx
      have := List.all_eq_true.mp hok.2 x hx
      simpa using this
    refine ⟨by simp [memGwStep, mongoGwStep, InMemoryStore.CreateEvent,
      MongoStore.CreateEvent, hne], h1, h2, ?_, h4⟩
    show mapSet e.id e ist.events = _
    rw [h3, mapSet_keyed_fresh (fun x : Event => x.id) e _ hfresh]
    simp [mongoGwStep, MongoStore.CreateEvent, hne]
  | listEvents uid =>
    refine ⟨?_, h1, h2, h3, h4⟩
    simp only [memGwStep, mongoGwStep, InMemoryStore.GetEvents,
      MongoStore.GetEvents]
    rw [h3, keyed_snd]
  | createUser g u =>
    simp only [gwOpOkB, Bool.and_eq_true, Bool.not_eq_true'] at hok
    have hne : (u.id == "") = false := hok.1
    have hfresh : ∀ x ∈ st.users, x.id ≠ u.id := by
      intro x hx
      have := List.all_eq_true.mp hok.2 x hx
      simpa using this
    refine ⟨by simp [memGwStep, mongoGwStep, InMemoryStore.CreateUser,
      MongoStore.CreateUser, hne], h1, h2, h3, ?_⟩
    show mapSet u.id u ist.users = _
    rw [h4, mapSet_keyed_fresh (fun x : User => x.id) u _ hfresh]
    simp [mongoGwStep, MongoStore.CreateUser, hne]
  | getUser id =>
    refine ⟨?_, h1, h2, h3, h4⟩
    simp only [memGwStep, mongoGwStep, InMemoryStore.GetUser,
      MongoStore.GetUser]
    rw [h4, mapGet_keyed]
  | updateUser id u =>
    simp only [gwOpOkB, Bool.not_eq_true'] at hok
    simp only [memGwStep, mongoGwStep, InMemoryStore.UpdateUser,
      MongoStore.UpdateUser, hok]
    rw [h4, mapGet_keyed]
    cases hf : st.users.find? (fun x => x.id == id) with
    | none =>
      have hup := updateOne_snd_zero (f := mergeUserFields u) hf
      simp only [hup]
      exact ⟨rfl, h1, h2, h3, h4⟩
    | some x =>
      have hup := updateOne_snd_pos (f := mergeUserFields u) hf
      have hfind := find?_updateOne (p := fun x : User => x.id == id)
        (f := mergeUserFields u)
        (fun y => by simp only [mergeUserFields_id]) hf
      simp only [hup]
      refine ⟨?_, h1, h2, h3, ?_⟩
      · simp only [MongoStore.GetUser, hfind]
        rfl
      · show mapSet id (mergeUserFields u x)
            (keyed (fun x : User => x.id) st.users) = _
        rw [mapSet_keyed_found (fun x : User => x.id) id (mergeUserFields u)
          (fun y hy => by
            show (mergeUserFields u y).id = id
            rw [mergeUserFields_id]
            exact hy) st.users x hf]
        rfl
  | updateUserPassword id pw =>
    simp only [gwOpOkB, Bool.not_eq_true'] at hok
    simp only [memGwStep, mongoGwStep, InMemoryStore.UpdateUserPassword,
      MongoStore.UpdateUserPassword, hok]
    rw [h4, mapGet_keyed]
    cases hf : st.users.find? (fun x => x.id == id) with
    | none =>
      have hup := updateOne_snd_zero
        (f := fun x : User => { x with password := pw }) hf
      simp only [hup]
      exact ⟨rfl, h1, h2, h3, h4⟩
    | some x =>
      have hup := updateOne_snd_pos
        (f := fun x : User => { x with password := pw }) hf
      have hfind := find?_updateOne (p := fun x : User => x.id == id)
        (f := fun x : User => { x with password := pw })
        (fun y => rfl) hf
      simp only [hup]
      refine ⟨?_, h1, h2, h3, ?_⟩
      · simp only [MongoStore.GetUser, hfind]
        rfl
      · show mapSet id { x with password := pw }
            (keyed (fun x : User => x.id) st.users) = _
        rw [mapSet_keyed_found (fun x : User => x.id) id
          (fun x => { x with password := pw })
          (fun y hy => hy) st.users x hf]
        rfl
  | markUserVerified id =>
    simp only [memGwStep, mongoGwStep, InMemoryStore.MarkUserVerified,
      MongoStore.MarkUserVerified]
    rw [h4, mapGet_keyed]
    cases hf : st.users.find? (fun x => x.id == id) with
    | none =>
      have hup := updateOne_snd_zero
        (f := fun x : User =>
          { x with isVerified := true, verificationToken := "" }) hf
      simp only [hup]
      exact ⟨rfl, h1, h2, h3, h4⟩
    | some x =>
      have hup := updateOne_snd_pos
        (f := fun x : User =>
          { x with isVerified := true, verificationToken := "" }) hf
      simp only [hup]
      refine ⟨rfl, h1, h2, h3, ?_⟩
      show mapSet id { x with isVerified := true, verificationToken := "" }
          (keyed (fun x : User => x.id) st.users) = _
      rw [mapSet_keyed_found (fun x : User => x.id) id
        (fun x => { x with isVerified := true, verificationToken := "" })
        (fun y hy => hy) st.users x hf]
      rfl

/-- Whole-run simulation: in this model the output lists coincide exactly
(`claim_C2` exports only the order-insensitive consequence). -/
theorem gwRun_sim :
    ∀ (ops : List GwOp) (st : MongoState) (ist : InMemoryState),
      gwRel st ist → gwOpsOkB ops st = true →
      (memGwRun ops ist).1 = (mongoGwRun ops st).1 ∧
      gwRel (mongoGwRun ops st).2 (memGwRun ops ist).2
  | [], _, _, hrel, _ => ⟨rfl, hrel⟩
  | op :: ops, st, ist, hrel, hok => by
    simp only [gwOpsOkB, Bool.and_eq_true] at hok
    have hstep := gwStep_sim op st ist hrel hok.1
    have hrest := gwRun_sim ops (mongoGwStep op st).2 (memGwStep op ist).2
      hstep.2 hok.2
    simp only [memGwRun, mongoGwRun]
    exact ⟨by rw [hstep.1, hrest.1], hrest.2⟩

theorem outEquiv_refl : ∀ o : GwOut, outEquiv o o := by
  intro o
  cases o <;> first
    | exact List.Perm.refl _
    | rfl

theorem forall₂_outEquiv_of_eq :
    ∀ {l₁ l₂ : List GwOut}, l₁ = l₂ → List.Forall₂ outEquiv l₁ l₂ := by
  intro l₁ l₂ h
  subst h
  induction l₁ with
  | nil => exact List.Forall₂.nil
  | cons x xs ih => exact List.Forall₂.cons (outEquiv_refl x) ih

/-- C2 (amended): starting from empty stores, every sequence of entity CRUD
operations — create/read/update/delete/list over tasks, courses, events and
users — yields identical observable results on the in-process and
document-store backends, with list results compared modulo record ordering
(Go randomizes map iteration order), provided creates use nonempty
not-yet-present ids, user updates set at least one field and password
updates are nonempty (each condition forced by a conjunct of
`claim_C2_cex`).  The claimed equivalence does not extend to the
notification and worker-helper queries, which the in-process backend stubs
(conjuncts 1 and 2 of `claim_C2_cex`). -/
theorem claim_C2 (ops : List GwOp) (h : gwOpsOkB ops emptyMongo = true) :
    List.Forall₂ outEquiv (memGwRun ops emptyInMemory).1
      (mongoGwRun ops emptyMongo).1 :=
  forall₂_outEquiv_of_eq
    (gwRun_sim ops emptyMongo emptyInMemory ⟨rfl, rfl, rfl, rfl⟩ h).1

/-- Fixture: a course record. -/
def c0 : Course :=
  { id := "c1", name := "Math", color := "blue", userID := "u1"
    totalTasks := 0, completedTasks := 0 }

/-- Fixture: a concrete workload exercising every entity CRUD operation. -/
def opsW : List GwOp :=
  [.createTask "g1" t0, .getTask "t1", .listTasks "u1",
   .updateTask "t1" { t0 with title := "PS2" }, .deleteTask "t1",
   .getTask "t1",
   .createCourse "g2" c0, .getCourse "c1", .listCourses "u1",
   .createEvent "g3" e0, .listEvents "u1",
   .createUser "g4" u2, .getUser "u9",
   .updateUser "u9" { u2 with name := "Nora" },
   .updateUserPassword "u9" "pw2", .markUserVerified "u9"]

/-- Witness for the amended C2 at a concrete input. -/
theorem claim_C2_witness :
    gwOpsOkB opsW emptyMongo = true ∧
    List.Forall₂ outEquiv (memGwRun opsW emptyInMemory).1
      (mongoGwRun opsW emptyMongo).1 :=
  ⟨by rfl, claim_C2 opsW (by rfl)⟩

end StudyBuddy
